import Mathlib

set_option maxRecDepth 10000

/-!
Shallow embedding of the adb socket-family address types of the repository
(`crates/lib/adb/src/socket.rs`, error type from `crates/lib/adb/src/error.rs`,
and the code generated for the derived families by
`crates/macro/derive/src/adb_socket_family.rs`), together with the parts of the
Rust standard library the code calls into: `char::to_digit`, unsigned integer
`FromStr` (`from_str_radix`), decimal / lower-hex integer display, and the
`core::net` address parser (`Parser::read_number`, `read_ipv4_addr`,
`read_ipv6_addr`, `read_port`, `read_scope_id`, `read_socket_addr`) and the
`Ipv4Addr`/`Ipv6Addr` display algorithms.

Machine integers are modelled as `Nat` with explicit bounds (`< 2^16`,
`< 2^32`) where the Rust code uses `u16`/`u32`; strings as Lean `String`
(lists of characters); `PathBuf` as the display string it wraps; fallible
parses return `Except AdbError` exactly as the Rust `FromStr` impls return
`Result<_, AdbError>`.
-/

namespace Disanger

/-- Mirrors Rust `char::to_digit(radix)`: `0-9`, then `a-z` / `A-Z` as 10…35,
rejected unless strictly below the radix. -/
def rustToDigit (radix : Nat) (c : Char) : Option Nat :=
  let raw : Option Nat :=
    if '0' ≤ c ∧ c ≤ '9' then some (c.toNat - '0'.toNat)
    else if 'a' ≤ c ∧ c ≤ 'z' then some (c.toNat - 'a'.toNat + 10)
    else if 'A' ≤ c ∧ c ≤ 'Z' then some (c.toNat - 'A'.toNat + 10)
    else none
  match raw with
  | some d => if d < radix then some d else none
  | none => none

/-- The character Rust prints for one digit value (decimal digits, then
lowercase hex letters, as produced by `{}` and `{:x}` formatting). -/
def digitChar : Nat → Char
  | 0 => '0'
  | 1 => '1'
  | 2 => '2'
  | 3 => '3'
  | 4 => '4'
  | 5 => '5'
  | 6 => '6'
  | 7 => '7'
  | 8 => '8'
  | 9 => '9'
  | 10 => 'a'
  | 11 => 'b'
  | 12 => 'c'
  | 13 => 'd'
  | 14 => 'e'
  | 15 => 'f'
  | _ => '*'

/-- Digit-production loop, structural on a fuel argument so that it reduces
definitionally; `digitsBE` supplies enough fuel (the value shrinks by a factor
of the radix at every step). -/
def digitsBEAux (radix : Nat) : Nat → Nat → List Char
  | 0, n => [digitChar n]
  | fuel + 1, n =>
    if n < radix ∨ radix ≤ 1 then [digitChar n]
    else digitsBEAux radix fuel (n / radix) ++ [digitChar (n % radix)]

/-- Most-significant-first digit string of `n` in base `radix`, as Rust's
integer `Display` (base 10) and `LowerHex` (base 16) produce it. -/
def digitsBE (radix n : Nat) : List Char := digitsBEAux radix n n

/-- Decimal digit string, `u8`/`u16`/`u32` `Display`. -/
def decShow (n : Nat) : List Char := digitsBE 10 n

/-- Lower-hex digit string, `u16` `LowerHex` (`{:x}`). -/
def hexShow (n : Nat) : List Char := digitsBE 16 n

/-- The digit loop of Rust `from_str_radix` for an unsigned type whose
values fit below `maxVal`: every remaining character must be a decimal
digit, and each step `acc * 10 + d` is checked against the type's range
(`checked_mul` / `checked_add`). -/
def parseUnsignedLoop (maxVal : Nat) : List Char → Nat → Option Nat
  | [], acc => some acc
  | c :: cs, acc =>
    match rustToDigit 10 c with
    | none => none
    | some d => if acc * 10 + d < maxVal then parseUnsignedLoop maxVal cs (acc * 10 + d) else none

/-- Rust `<uNN as FromStr>::from_str` (via `from_str_radix` with radix 10) on a
character list: empty input fails, a leading `+` is skipped (but `"+"` alone
fails), a leading `-` fails for unsigned types, then the checked digit loop. -/
def rustParseUnsignedList (maxVal : Nat) (cs : List Char) : Option Nat :=
  match cs with
  | [] => none
  | c :: rest =>
    if c = '+' then
      match rest with
      | [] => none
      | _ => parseUnsignedLoop maxVal rest 0
    else if c = '-' then none
    else parseUnsignedLoop maxVal (c :: rest) 0

/-- Rust `<uNN as FromStr>::from_str` on a string. -/
def rustParseUnsigned (maxVal : Nat) (s : String) : Option Nat :=
  rustParseUnsignedList maxVal s.data

/-- Rust `str::split_once(sep)`: split at the first occurrence of `sep`. -/
def splitOnceList (sep : Char) : List Char → Option (List Char × List Char)
  | [] => none
  | c :: cs =>
    if c = sep then some ([], cs)
    else match splitOnceList sep cs with
      | some (a, b) => some (c :: a, b)
      | none => none

/-- Rust `str::strip_prefix` for a literal character-list prefix. -/
def dropPre : List Char → List Char → Option (List Char)
  | [], cs => some cs
  | p :: ps, c :: cs => if c = p then dropPre ps cs else none
  | _ :: _, [] => none

/-- Rust `str::strip_suffix(']')`-style single-character suffix stripping. -/
def stripSuffixChar (c : Char) (cs : List Char) : Option (List Char) :=
  if cs.getLast? = some c then some cs.dropLast else none

/-! ## The `core::net` parser (`core/src/net/parser.rs`)

The Rust parser is a backtracking reader over a byte slice; every reader is
wrapped in `read_atomically`, so a failed reader consumes nothing.  We model a
reader as a function `List Char → Option (α × List Char)` returning the value
and the unconsumed remainder; backtracking is implicit because the caller keeps
the original list on failure. -/

/-- `Parser::read_given_char`. -/
def expectChar (target : Char) : List Char → Option (List Char)
  | c :: cs => if c = target then some cs else none
  | [] => none

/-- The digit loop of `Parser::read_number`: reads digits while they parse in
the given radix, checking `checked_mul`/`checked_add` against `maxVal` (the
first value that does not fit) and the optional digit-count limit.  Returns the
accumulated value, the digit count and the remainder. -/
def readNumberLoop (radix maxVal : Nat) (maxDigits : Option Nat) :
    List Char → Nat → Nat → Option (Nat × Nat × List Char)
  | [], acc, count => some (acc, count, [])
  | c :: cs, acc, count =>
    match rustToDigit radix c with
    | none => some (acc, count, c :: cs)
    | some d =>
      if acc * radix + d < maxVal then
        match maxDigits with
        | some m =>
          if count + 1 > m then none
          else readNumberLoop radix maxVal maxDigits cs (acc * radix + d) (count + 1)
        | none => readNumberLoop radix maxVal maxDigits cs (acc * radix + d) (count + 1)
      else none

/-- `Parser::read_number(radix, max_digits, allow_zero_prefix)` for an integer
type whose values lie below `maxVal`: at least one digit, and a leading zero is
rejected when `allowZeroPrefix` is false and more than one digit was read. -/
def readNumber (radix : Nat) (maxDigits : Option Nat) (allowZeroPrefix : Bool)
    (maxVal : Nat) (cs : List Char) : Option (Nat × List Char) :=
  let hasLeadingZero := cs.head? = some '0'
  match readNumberLoop radix maxVal maxDigits cs 0 0 with
  | none => none
  | some (result, count, rest) =>
    if count = 0 then none
    else if allowZeroPrefix = false ∧ hasLeadingZero ∧ count > 1 then none
    else some (result, rest)

/-- Rust `core::net::Ipv4Addr`, as its four octets. -/
structure Ipv4Addr where
  a : Nat
  b : Nat
  c : Nat
  d : Nat
deriving DecidableEq

/-- Octets in range. -/
def Ipv4Addr.wf (v : Ipv4Addr) : Prop :=
  v.a < 256 ∧ v.b < 256 ∧ v.c < 256 ∧ v.d < 256

/-- Rust `core::net::Ipv6Addr`, as its eight 16-bit segments. -/
structure Ipv6Addr where
  segs : List Nat
deriving DecidableEq

/-- Eight segments, each in range. -/
def Ipv6Addr.wf (v : Ipv6Addr) : Prop :=
  v.segs.length = 8 ∧ ∀ g ∈ v.segs, g < 65536

/-- Rust `core::net::IpAddr`. -/
inductive IpAddr where
  | v4 (addr : Ipv4Addr)
  | v6 (addr : Ipv6Addr)
deriving DecidableEq

def IpAddr.wf : IpAddr → Prop
  | .v4 a => a.wf
  | .v6 a => a.wf

/-- Rust `core::net::SocketAddr` (flow info of the V6 form is always 0 in the
parser and never observed by this crate, so it is omitted). -/
inductive SocketAddr where
  | v4 (ip : Ipv4Addr) (port : Nat)
  | v6 (ip : Ipv6Addr) (port : Nat) (scopeId : Nat)
deriving DecidableEq

/-- `SocketAddr::is_ipv4`. -/
def SocketAddr.isV4 : SocketAddr → Bool
  | .v4 _ _ => true
  | .v6 _ _ _ => false

/-- `Parser::read_ipv4_addr`: four decimal numbers of at most three digits,
no zero prefix, range `u8`, separated by `.`. -/
def readIpv4 (cs : List Char) : Option (Ipv4Addr × List Char) := do
  let (a, cs) ← readNumber 10 (some 3) false 256 cs
  let cs ← expectChar '.' cs
  let (b, cs) ← readNumber 10 (some 3) false 256 cs
  let cs ← expectChar '.' cs
  let (c, cs) ← readNumber 10 (some 3) false 256 cs
  let cs ← expectChar '.' cs
  let (d, cs) ← readNumber 10 (some 3) false 256 cs
  some (⟨a, b, c, d⟩, cs)

/-- The `read_groups` helper inside `Parser::read_ipv6_addr`.  `first` is true
for the group at index 0 (no `:` separator before it); `slots` is the number of
group slots still available.  At every index with at least two slots left it
first tries a trailing embedded IPv4 address; the boolean result records
whether that happened. -/
def readGroupsAux (first : Bool) (slots : Nat) (cs : List Char) :
    List Nat × Bool × List Char :=
  match slots with
  | 0 => ([], false, cs)
  | slots' + 1 =>
    let sepped : Option (List Char) :=
      if first then some cs
      else match cs with
        | ':' :: rest => some rest
        | _ => none
    let ipv4Try : Option (Ipv4Addr × List Char) :=
      if slots' ≥ 1 then
        match sepped with
        | some cs' => readIpv4 cs'
        | none => none
      else none
    match ipv4Try with
    | some (v4, rest) => ([v4.a * 256 + v4.b, v4.c * 256 + v4.d], true, rest)
    | none =>
      match (match sepped with
             | some cs' => readNumber 16 (some 4) true 65536 cs'
             | none => none) with
      | some (g, rest) =>
        let (gs, usedIpv4, rest') := readGroupsAux false slots' rest
        (g :: gs, usedIpv4, rest')
      | none => ([], false, cs)

/-- `Parser::read_ipv6_addr`: head groups, then `::` and tail groups placed at
the end, the gap filled with zero groups. -/
def readIpv6 (cs : List Char) : Option (Ipv6Addr × List Char) :=
  let res := readGroupsAux true 8 cs
  let head := res.1
  if head.length = 8 then some (⟨head⟩, res.2.2)
  else if res.2.1 then none
  else
    match res.2.2 with
    | ':' :: ':' :: cs2 =>
      let limit := 8 - (head.length + 1)
      let tres := readGroupsAux true limit cs2
      let tail := tres.1
      some (⟨head ++ List.replicate (8 - head.length - tail.length) 0 ++ tail⟩, tres.2.2)
    | _ => none

/-- `Parser::read_port`: `:` then a decimal `u16` with zero prefix allowed. -/
def readPort (cs : List Char) : Option (Nat × List Char) :=
  match cs with
  | ':' :: rest => readNumber 10 none true 65536 rest
  | _ => none

/-- `Parser::read_scope_id`: `%` then a decimal `u32` with zero prefix allowed. -/
def readScopeId (cs : List Char) : Option (Nat × List Char) :=
  match cs with
  | '%' :: rest => readNumber 10 none true 4294967296 rest
  | _ => none

/-- `Parser::read_socket_addr_v4`. -/
def readSocketAddrV4 (cs : List Char) : Option (SocketAddr × List Char) := do
  let (ip, cs) ← readIpv4 cs
  let (port, cs) ← readPort cs
  some (.v4 ip port, cs)

/-- `Parser::read_socket_addr_v6`: bracketed IPv6 with an optional scope id,
then a port. -/
def readSocketAddrV6 (cs : List Char) : Option (SocketAddr × List Char) :=
  match cs with
  | '[' :: cs1 =>
    match readIpv6 cs1 with
    | none => none
    | some (ip, rest) =>
      let scRes : Nat × List Char :=
        match readScopeId rest with
        | some (sc, r) => (sc, r)
        | none => (0, rest)
      match scRes.2 with
      | ']' :: rest3 =>
        match readPort rest3 with
        | some (port, rest4) => some (.v6 ip port scRes.1, rest4)
        | none => none
      | _ => none
  | _ => none

/-- `Parser::read_socket_addr`: V4 first, then V6. -/
def readSocketAddr (cs : List Char) : Option (SocketAddr × List Char) :=
  match readSocketAddrV4 cs with
  | some r => some r
  | none => readSocketAddrV6 cs

/-- `Parser::parse_with`: run a reader and require that it consumes the entire
input (`Ipv4Addr::from_str`). -/
def ipv4Parse (cs : List Char) : Option Ipv4Addr :=
  match readIpv4 cs with
  | some (v, []) => some v
  | _ => none

/-- `Ipv6Addr::from_str`. -/
def ipv6Parse (cs : List Char) : Option Ipv6Addr :=
  match readIpv6 cs with
  | some (v, []) => some v
  | _ => none

/-- `SocketAddr::from_str`. -/
def sockAddrParse (cs : List Char) : Option SocketAddr :=
  match readSocketAddr cs with
  | some (v, []) => some v
  | _ => none

/-! ## Address displays (`core/src/net/ip_addr.rs`) -/

/-- `Ipv4Addr` display: `a.b.c.d`, each octet decimal. -/
def ipv4Chars (v : Ipv4Addr) : List Char :=
  decShow v.a ++ '.' :: decShow v.b ++ '.' :: decShow v.c ++ '.' :: decShow v.d

/-- `Ipv6Addr::to_ipv4`: `Some` for the IPv4-compatible segments
`[0,0,0,0,0,0,hi,lo]` and the IPv4-mapped segments `[0,0,0,0,0,0xffff,hi,lo]`. -/
def Ipv6Addr.toIpv4 (v : Ipv6Addr) : Option Ipv4Addr :=
  match v.segs with
  | [0, 0, 0, 0, 0, 0, g6, g7] => some ⟨g6 / 256, g6 % 256, g7 / 256, g7 % 256⟩
  | [0, 0, 0, 0, 0, 65535, g6, g7] => some ⟨g6 / 256, g6 % 256, g7 / 256, g7 % 256⟩
  | _ => none

/-- The zero-run fold of `Ipv6Addr`'s display: walks the segments tracking the
current run of zero segments and the longest run seen so far (first longest
wins; a new run only replaces a strictly shorter one). -/
def zeroRunFold : List Nat → Nat → Nat × Nat → Nat × Nat → Nat × Nat
  | [], _, longest, _ => longest
  | seg :: rest, i, longest, current =>
    if seg = 0 then
      let current' := if current.2 = 0 then (i, 1) else (current.1, current.2 + 1)
      let longest' := if current'.2 > longest.2 then current' else longest
      zeroRunFold rest (i + 1) longest' current'
    else zeroRunFold rest (i + 1) longest (0, 0)

/-- Start and length of the first longest run of zero segments. -/
def longestZeroRun (segs : List Nat) : Nat × Nat :=
  zeroRunFold segs 0 (0, 0) (0, 0)

/-- `fmt_subslice`: lower-hex groups joined by `:`, from the second one on. -/
def fmtGroupsTail : List Nat → List Char
  | [] => []
  | g :: gs => ':' :: (hexShow g ++ fmtGroupsTail gs)

/-- `fmt_subslice`: lower-hex groups joined by `:`. -/
def fmtGroups : List Nat → List Char
  | [] => []
  | g :: gs => hexShow g ++ fmtGroupsTail gs

/-- `Ipv6Addr` display: `::` for the unspecified address and `::1` for the
loopback address, `::a.b.c.d` for an IPv4-compatible address (sixth segment
zero), `::ffff:a.b.c.d` for an IPv4-mapped address (sixth segment `0xffff`),
else the longest zero run (of length at least two) compressed to `::`, else
all eight groups. -/
def ipv6Chars (v : Ipv6Addr) : List Char :=
  if v.segs = [0, 0, 0, 0, 0, 0, 0, 0] then "::".data
  else if v.segs = [0, 0, 0, 0, 0, 0, 0, 1] then "::1".data
  else match v.toIpv4 with
  | some v4 =>
    if v.segs.getD 5 0 = 0 then "::".data ++ ipv4Chars v4
    else "::ffff:".data ++ ipv4Chars v4
  | none =>
    let z := longestZeroRun v.segs
    if z.2 > 1 then
      fmtGroups (v.segs.take z.1) ++ ':' :: ':' :: fmtGroups (v.segs.drop (z.1 + z.2))
    else fmtGroups v.segs

/-! ## The adb crate: error type and socket families -/

/-- `AdbError::Parse` from `crates/lib/adb/src/error.rs`.  The boxed
`source: Option<Box<dyn Error>>` is modelled by whether a cause is present. -/
structure AdbError where
  value : String
  sourceType : String
  targetType : String
  cause : Bool
deriving DecidableEq

/-- `Tcp` from `socket.rs`: optional IP address and optional port. -/
structure Tcp where
  ip : Option IpAddr
  port : Option Nat
deriving DecidableEq

/-- `Tcp::new`. -/
def Tcp.new (host : IpAddr) (port : Nat) : Tcp := ⟨some host, some port⟩

/-- `Tcp::from_ip`. -/
def Tcp.fromIp (host : IpAddr) : Tcp := ⟨some host, none⟩

/-- `Tcp::from_ipv4`. -/
def Tcp.fromIpv4 (host : Ipv4Addr) : Tcp := ⟨some (.v4 host), none⟩

/-- `Tcp::from_ipv6`. -/
def Tcp.fromIpv6 (host : Ipv6Addr) : Tcp := ⟨some (.v6 host), none⟩

/-- `Tcp::from_port`. -/
def Tcp.fromPort (port : Nat) : Tcp := ⟨none, some port⟩

/-- `impl From<SocketAddr> for Tcp`: `Tcp::new(addr.ip(), addr.port())`. -/
def Tcp.ofSocketAddr : SocketAddr → Tcp
  | .v4 ip port => ⟨some (.v4 ip), some port⟩
  | .v6 ip port _ => ⟨some (.v6 ip), some port⟩

/-- Field bounds of a `Tcp` value (a Rust `Tcp` carries `IpAddr` and `u16`). -/
def Tcp.wf (t : Tcp) : Prop :=
  (∀ ip, t.ip = some ip → ip.wf) ∧ ∀ p, t.port = some p → p < 65536

/-- `impl Display for Tcp`, character level. -/
def Tcp.displayChars : Tcp → List Char
  | ⟨some (.v4 v4), some port⟩ => "tcp:".data ++ ipv4Chars v4 ++ ':' :: decShow port
  | ⟨some (.v6 v6), some port⟩ => "tcp:[".data ++ ipv6Chars v6 ++ ']' :: ':' :: decShow port
  | ⟨some (.v4 v4), none⟩ => "tcp:".data ++ ipv4Chars v4
  | ⟨some (.v6 v6), none⟩ => "tcp:[".data ++ ipv6Chars v6 ++ [']']
  | ⟨none, some port⟩ => "tcp:".data ++ decShow port
  | ⟨none, none⟩ => []

/-- `impl Display for Tcp`. -/
def Tcp.display (t : Tcp) : String := ⟨t.displayChars⟩

/-- `impl FromStr for Tcp` from `socket.rs`: strip `tcp:` (empty remainder is
an error), then try `u16`, `SocketAddr`, `Ipv4Addr`, and finally a bracketed
`Ipv6Addr`. -/
def Tcp.fromStr (s : String) : Except AdbError Tcp :=
  match dropPre "tcp:".data s.data with
  | none => .error ⟨s, "&str", "Tcp", false⟩
  | some [] => .error ⟨s, "&str", "Tcp", false⟩
  | some value =>
    match rustParseUnsignedList 65536 value with
    | some port => .ok (Tcp.fromPort port)
    | none =>
      match sockAddrParse value with
      | some addr => .ok (Tcp.ofSocketAddr addr)
      | none =>
        match ipv4Parse value with
        | some v4 => .ok (Tcp.fromIpv4 v4)
        | none =>
          match (dropPre ['['] value).bind (stripSuffixChar ']') with
          | none => .error ⟨⟨value⟩, "&str", "Ipv6Addr", false⟩
          | some inner =>
            match ipv6Parse inner with
            | some v6 => .ok (Tcp.fromIpv6 v6)
            | none => .error ⟨⟨inner⟩, "&str", "Ipv6Addr", true⟩

/-- `LocalAbstract(pub String)`. -/
structure LocalAbstract where
  val : String
deriving DecidableEq

/-- `LocalReserved(pub String)`. -/
structure LocalReserved where
  val : String
deriving DecidableEq

/-- `LocalFileSystem(pub PathBuf)`. -/
structure LocalFileSystem where
  val : String
deriving DecidableEq

/-- `Dev(pub PathBuf)`. -/
structure Dev where
  val : String
deriving DecidableEq

/-- `DevRaw(pub PathBuf)`. -/
structure DevRaw where
  val : String
deriving DecidableEq

/-- `Jdwp(pub u32)`. -/
structure Jdwp where
  pid : Nat
deriving DecidableEq

/-- `Vsock { cid: u32, port: u32 }`. -/
structure Vsock where
  cid : Nat
  port : Nat
deriving DecidableEq

/-- `AcceptFd(pub u32)`. -/
structure AcceptFd where
  fd : Nat
deriving DecidableEq

/-- Derived `Display` for `LocalAbstract`: `localabstract:{}`. -/
def LocalAbstract.display (v : LocalAbstract) : String := "localabstract:" ++ v.val

/-- Derived `Display` for `LocalReserved`: `localreserved:{}`. -/
def LocalReserved.display (v : LocalReserved) : String := "localreserved:" ++ v.val

/-- Derived `Display` for `LocalFileSystem`: `localfilesystem:{}` with the
path shown via `Path::display`. -/
def LocalFileSystem.display (v : LocalFileSystem) : String := "localfilesystem:" ++ v.val

/-- Derived `Display` for `Dev`: `dev:{}` with the path shown via
`Path::display`. -/
def Dev.display (v : Dev) : String := "dev:" ++ v.val

/-- Hand-written `Display` for `DevRaw`: `dev-raw:{}`. -/
def DevRaw.display (v : DevRaw) : String := "dev-raw:" ++ v.val

/-- Derived `Display` for `Jdwp`: `jdwp:{}`. -/
def Jdwp.display (v : Jdwp) : String := "jdwp:" ++ ⟨decShow v.pid⟩

/-- Derived `Display` for `Vsock`: `vsock:{}:{}`. -/
def Vsock.display (v : Vsock) : String := "vsock:" ++ ⟨decShow v.cid⟩ ++ ":" ++ ⟨decShow v.port⟩

/-- Derived `Display` for `AcceptFd`: `acceptfd:{}`. -/
def AcceptFd.display (v : AcceptFd) : String := "acceptfd:" ++ ⟨decShow v.fd⟩

/-- `u32::MAX + 1`, the bound used by the derived numeric field parses. -/
def u32Bound : Nat := 4294967296

/-- Derived `FromStr` for `LocalAbstract`: split once on `:`, require the tag,
the `String` field parse is infallible. -/
def LocalAbstract.fromStr (s : String) : Except AdbError LocalAbstract :=
  match splitOnceList ':' s.data with
  | some (tag, rest) =>
    if tag = "localabstract".data then .ok ⟨⟨rest⟩⟩
    else .error ⟨s, "&str", "LocalAbstract", false⟩
  | none => .error ⟨s, "&str", "LocalAbstract", false⟩

/-- Derived `FromStr` for `LocalReserved`. -/
def LocalReserved.fromStr (s : String) : Except AdbError LocalReserved :=
  match splitOnceList ':' s.data with
  | some (tag, rest) =>
    if tag = "localreserved".data then .ok ⟨⟨rest⟩⟩
    else .error ⟨s, "&str", "LocalReserved", false⟩
  | none => .error ⟨s, "&str", "LocalReserved", false⟩

/-- Derived `FromStr` for `LocalFileSystem`; the `PathBuf` field parse is
infallible. -/
def LocalFileSystem.fromStr (s : String) : Except AdbError LocalFileSystem :=
  match splitOnceList ':' s.data with
  | some (tag, rest) =>
    if tag = "localfilesystem".data then .ok ⟨⟨rest⟩⟩
    else .error ⟨s, "&str", "LocalFileSystem", false⟩
  | none => .error ⟨s, "&str", "LocalFileSystem", false⟩

/-- Derived `FromStr` for `Dev`. -/
def Dev.fromStr (s : String) : Except AdbError Dev :=
  match splitOnceList ':' s.data with
  | some (tag, rest) =>
    if tag = "dev".data then .ok ⟨⟨rest⟩⟩
    else .error ⟨s, "&str", "Dev", false⟩
  | none => .error ⟨s, "&str", "Dev", false⟩

/-- Hand-written `FromStr` for `DevRaw`: strip the `dev-raw:` prefix, wrap the
rest as a path. -/
def DevRaw.fromStr (s : String) : Except AdbError DevRaw :=
  match dropPre "dev-raw:".data s.data with
  | some rest => .ok ⟨⟨rest⟩⟩
  | none => .error ⟨s, "&str", "DevRaw", false⟩

/-- Derived `FromStr` for `Jdwp`: tag, then a `u32` field; the field error
carries the remainder and the `u32` parse error as cause. -/
def Jdwp.fromStr (s : String) : Except AdbError Jdwp :=
  match splitOnceList ':' s.data with
  | some (tag, rest) =>
    if tag = "jdwp".data then
      match rustParseUnsignedList u32Bound rest with
      | some pid => .ok ⟨pid⟩
      | none => .error ⟨⟨rest⟩, "&str", "u32", true⟩
    else .error ⟨s, "&str", "Jdwp", false⟩
  | none => .error ⟨s, "&str", "Jdwp", false⟩

/-- Derived `FromStr` for `Vsock`: tag, split the remainder once on `:` for the
`cid` (in the generated code the value slot of a failed `cid` parse is the
shadowed remainder after that split), then the `port` from what is left. -/
def Vsock.fromStr (s : String) : Except AdbError Vsock :=
  match splitOnceList ':' s.data with
  | some (tag, rest) =>
    if tag = "vsock".data then
      match splitOnceList ':' rest with
      | some (cidPart, rest2) =>
        match rustParseUnsignedList u32Bound cidPart with
        | some cid =>
          match rustParseUnsignedList u32Bound rest2 with
          | some port => .ok ⟨cid, port⟩
          | none => .error ⟨⟨rest2⟩, "&str", "u32", true⟩
        | none => .error ⟨⟨rest2⟩, "&str", "u32", true⟩
      | none => .error ⟨⟨rest⟩, "&str", "u32", false⟩
    else .error ⟨s, "&str", "Vsock", false⟩
  | none => .error ⟨s, "&str", "Vsock", false⟩

/-- Derived `FromStr` for `AcceptFd`. -/
def AcceptFd.fromStr (s : String) : Except AdbError AcceptFd :=
  match splitOnceList ':' s.data with
  | some (tag, rest) =>
    if tag = "acceptfd".data then
      match rustParseUnsignedList u32Bound rest with
      | some fd => .ok ⟨fd⟩
      | none => .error ⟨⟨rest⟩, "&str", "u32", true⟩
    else .error ⟨s, "&str", "AcceptFd", false⟩
  | none => .error ⟨s, "&str", "AcceptFd", false⟩

/-- The `AdbSocketFamilies` enum from `socket.rs`, with its nine declared
variants in declaration order. -/
inductive AdbSocketFamilies where
  | tcp (v : Tcp)
  | localAbstract (v : LocalAbstract)
  | localReserved (v : LocalReserved)
  | localFileSystem (v : LocalFileSystem)
  | dev (v : Dev)
  | devRaw (v : DevRaw)
  | jdwp (v : Jdwp)
  | vsock (v : Vsock)
  | acceptFd (v : AcceptFd)
deriving DecidableEq

/-- Derived `Display` for the enum: delegate to the active variant. -/
def AdbSocketFamilies.display : AdbSocketFamilies → String
  | .tcp v => v.display
  | .localAbstract v => v.display
  | .localReserved v => v.display
  | .localFileSystem v => v.display
  | .dev v => v.display
  | .devRaw v => v.display
  | .jdwp v => v.display
  | .vsock v => v.display
  | .acceptFd v => v.display

/-- Derived `FromStr` for the enum: try every variant's parse in declaration
order, return the first success; if all fail, a fresh error tagged with the
enum's own name and no cause. -/
def AdbSocketFamilies.fromStr (s : String) : Except AdbError AdbSocketFamilies :=
  match Tcp.fromStr s with
  | .ok v => .ok (.tcp v)
  | .error _ =>
  match LocalAbstract.fromStr s with
  | .ok v => .ok (.localAbstract v)
  | .error _ =>
  match LocalReserved.fromStr s with
  | .ok v => .ok (.localReserved v)
  | .error _ =>
  match LocalFileSystem.fromStr s with
  | .ok v => .ok (.localFileSystem v)
  | .error _ =>
  match Dev.fromStr s with
  | .ok v => .ok (.dev v)
  | .error _ =>
  match DevRaw.fromStr s with
  | .ok v => .ok (.devRaw v)
  | .error _ =>
  match Jdwp.fromStr s with
  | .ok v => .ok (.jdwp v)
  | .error _ =>
  match Vsock.fromStr s with
  | .ok v => .ok (.vsock v)
  | .error _ =>
  match AcceptFd.fromStr s with
  | .ok v => .ok (.acceptFd v)
  | .error _ => .error ⟨s, "&str", "AdbSocketFamilies", false⟩

/-! ## Hostname resolution (`Tcp::resolve` / `Tcp::from_host`)

`ToSocketAddrs::to_socket_addrs` is the platform resolver; it is passed in as
a function returning `none` for a resolver error and the produced address list
otherwise. -/

/-- `Tcp::resolve`: resolver errors are wrapped with a cause; an empty result
is an error without cause; a first IPv4 candidate is taken directly; otherwise
the first IPv4 among the remaining candidates, or the first candidate. -/
def Tcp.resolve (resolver : String → Option (List SocketAddr)) (host : String) :
    Except AdbError Tcp :=
  match resolver host with
  | none => .error ⟨host, "&str", "std::vec::IntoIter<SocketAddr>", true⟩
  | some addrs =>
    match addrs with
    | [] => .error ⟨host, "&str", "SocketAddr", false⟩
    | first :: rest =>
      match first with
      | .v4 ip port => .ok (Tcp.ofSocketAddr (.v4 ip port))
      | _ => .ok (Tcp.ofSocketAddr ((rest.find? SocketAddr.isV4).getD first))

/-- `Tcp::from_host`: literal parse first; else resolve; else resolve with a
synthetic `:0` port suffix, dropping the port on success and keeping the
first resolution error otherwise. -/
def Tcp.fromHost (resolver : String → Option (List SocketAddr)) (host : String) :
    Except AdbError Tcp :=
  match Tcp.fromStr host with
  | .ok t => .ok t
  | .error _ =>
    match Tcp.resolve resolver host with
    | .ok t => .ok t
    | .error e =>
      match Tcp.resolve resolver (host ++ ":0") with
      | .ok t => .ok ⟨t.ip, none⟩
      | .error _ => .error e

/-- Success value of an `Except`. -/
def exceptToOption {ε α : Type} : Except ε α → Option α
  | .ok a => some a
  | .error _ => none

/-- Whether an `Except` is a success. -/
def exceptIsOk {ε α : Type} : Except ε α → Bool
  | .ok _ => true
  | .error _ => false

/-- Written from the wording of the claim about `Tcp` parsing, not from the
source: after the `tcp:` tag, (1) an empty remainder fails, (2) a whole-string
unsigned 16-bit integer gives a port-only value, (3) else a full socket
address gives both fields, (4) else a bare dotted IPv4 address gives a
host-only value, (5) else one pair of square brackets around a bare IPv6
address gives a host-only value, otherwise the parse fails. -/
def tcpParseClaimOrder (s : String) : Option Tcp :=
  match dropPre "tcp:".data s.data with
  | none => none
  | some value =>
    if value = [] then none
    else match rustParseUnsignedList 65536 value with
    | some port => some ⟨none, some port⟩
    | none =>
      match sockAddrParse value with
      | some (.v4 ip port) => some ⟨some (.v4 ip), some port⟩
      | some (.v6 ip port _) => some ⟨some (.v6 ip), some port⟩
      | none =>
        match ipv4Parse value with
        | some v4 => some ⟨some (.v4 v4), none⟩
        | none =>
          match (dropPre ['['] value).bind (stripSuffixChar ']') with
          | some inner =>
            match ipv6Parse inner with
            | some v6 => some ⟨some (.v6 v6), none⟩
            | none => none
          | none => none

/-- The next character of `cs`, if any, is not a digit in radix `r`. -/
def HeadNotDigit (r : Nat) (cs : List Char) : Prop :=
  ∀ c, cs.head? = some c → rustToDigit r c = none

/-- The remainders that can legitimately follow a printed IPv6 group list:
nothing, a closing bracket, or the `::` of a compressed display. -/
def StopTok (cs : List Char) : Prop :=
  cs = [] ∨ cs.head? = some ']' ∨ (cs.head? = some ':' ∧ cs.tail.head? = some ':')

/-- `sl` describes a run of zero segments inside `segs`. -/
def ZeroSpan (segs : List Nat) (sl : Nat × Nat) : Prop :=
  sl.1 + sl.2 ≤ segs.length ∧ ∀ j < sl.2, segs[sl.1 + j]? = some 0

/-- The text before the first `:` of a string — the tag token every family's
parse keys on. -/
def firstTag (s : String) : Option (List Char) :=
  (splitOnceList ':' s.data).map Prod.fst

/-! # Proof development

## Digit characters and digit strings -/

theorem rustToDigit_digitChar {r d : Nat} (hr : r ≤ 16) (hd : d < r) :
    rustToDigit r (digitChar d) = some d := by
  have h16 : d < 16 := lt_of_lt_of_le hd hr
  interval_cases d <;> simp +decide [rustToDigit, digitChar, hd]

theorem digitChar_not_special {d : Nat} (hd : d < 16) :
    digitChar d ≠ '+' ∧ digitChar d ≠ '-' ∧ digitChar d ≠ '.' ∧ digitChar d ≠ ':' ∧
      digitChar d ≠ ']' ∧ digitChar d ≠ '[' := by
  interval_cases d <;> decide

theorem digitChar_ne_zero {d : Nat} (hd : d < 16) (hd0 : d ≠ 0) : digitChar d ≠ '0' := by
  interval_cases d <;> simp_all <;> decide

theorem digitsBEAux_irrel {r : Nat} :
    ∀ fuel₁ fuel₂ n, n ≤ fuel₁ → n ≤ fuel₂ →
      digitsBEAux r fuel₁ n = digitsBEAux r fuel₂ n := by
  intro fuel₁
  induction fuel₁ with
  | zero =>
    intro fuel₂ n h1 _
    interval_cases n
    cases fuel₂ with
    | zero => rfl
    | succ f =>
      have : (0 : Nat) < r ∨ r ≤ 1 := by omega
      simp [digitsBEAux, this]
  | succ f ih =>
    intro fuel₂ n h1 h2
    by_cases hc : n < r ∨ r ≤ 1
    · cases fuel₂ with
      | zero =>
        interval_cases n
        simp [digitsBEAux, hc]
      | succ f₂ => simp [digitsBEAux, hc]
    · have hr : 2 ≤ r := by omega
      have hn : r ≤ n := by omega
      cases fuel₂ with
      | zero => omega
      | succ f₂ =>
        have hdiv : n / r < n := Nat.div_lt_self (by omega) (by omega)
        simp only [digitsBEAux, if_neg hc]
        rw [ih f₂ (n / r) (by omega) (by omega)]

theorem digitsBE_lt {r n : Nat} (h : n < r ∨ r ≤ 1) : digitsBE r n = [digitChar n] := by
  cases n with
  | zero => cases r <;> rfl
  | succ m => simp [digitsBE, digitsBEAux, h]

theorem digitsBE_ge {r n : Nat} (hr : 2 ≤ r) (h : r ≤ n) :
    digitsBE r n = digitsBE r (n / r) ++ [digitChar (n % r)] := by
  have hn : n ≠ 0 := by omega
  obtain ⟨m, rfl⟩ : ∃ m, n = m + 1 := ⟨n - 1, by omega⟩
  have hc : ¬(m + 1 < r ∨ r ≤ 1) := by omega
  have hdiv : (m + 1) / r < m + 1 := Nat.div_lt_self (by omega) (by omega)
  simp only [digitsBE, digitsBEAux, if_neg hc]
  rw [digitsBEAux_irrel m ((m + 1) / r) ((m + 1) / r) (by omega) le_rfl]

theorem digitsBE_ne_nil {r n : Nat} : digitsBE r n ≠ [] := by
  by_cases h : n < r ∨ r ≤ 1
  · rw [digitsBE_lt h]; simp
  · rw [digitsBE_ge (by omega) (by omega)]; simp

theorem digitsBE_length_le {r : Nat} (hr : 2 ≤ r) :
    ∀ k n, 1 ≤ k → n < r ^ k → (digitsBE r n).length ≤ k := by
  intro k
  induction k with
  | zero => omega
  | succ k ih =>
    intro n _ h2
    by_cases hn : n < r
    · rw [digitsBE_lt (Or.inl hn)]; simp
    · have hk : 1 ≤ k := by
        by_contra hk0
        have : k = 0 := by omega
        subst this
        simp [pow_one] at h2
        omega
      rw [digitsBE_ge hr (by omega)]
      have hdivlt : n / r < r ^ k := by
        rw [Nat.div_lt_iff_lt_mul (by omega : 0 < r)]
        calc n < r ^ (k + 1) := h2
          _ = r ^ k * r := by rw [pow_succ]
      have := ih (n / r) hk hdivlt
      simp only [List.length_append, List.length_cons, List.length_nil]
      omega

theorem digitsBE_mem {r : Nat} (hr : 2 ≤ r) :
    ∀ n c, c ∈ digitsBE r n → ∃ d, d < r ∧ c = digitChar d := by
  intro n
  induction n using Nat.strong_induction_on with
  | _ n ih =>
    intro c hc
    by_cases hn : n < r
    · rw [digitsBE_lt (Or.inl hn)] at hc
      simp at hc
      exact ⟨n, hn, hc⟩
    · rw [digitsBE_ge hr (by omega)] at hc
      rcases List.mem_append.mp hc with h | h
      · exact ih (n / r) (Nat.div_lt_self (by omega) (by omega)) c h
      · simp at h
        exact ⟨n % r, Nat.mod_lt _ (by omega), h⟩

theorem digitsBE_head_ne_zero {r : Nat} (hr : 2 ≤ r) (hr16 : r ≤ 16) :
    ∀ n, n ≠ 0 → (digitsBE r n).head? ≠ some '0' := by
  intro n
  induction n using Nat.strong_induction_on with
  | _ n ih =>
    intro hn
    by_cases hlt : n < r
    · rw [digitsBE_lt (Or.inl hlt)]
      have h16 : n < 16 := by omega
      simp only [List.head?_cons, ne_eq, Option.some.injEq]
      exact digitChar_ne_zero h16 hn
    · rw [digitsBE_ge hr (by omega)]
      rw [List.head?_append_of_ne_nil _ digitsBE_ne_nil]
      exact ih (n / r) (Nat.div_lt_self (by omega) (by omega)) (by
        have : r ≤ n := by omega
        have := Nat.one_le_div_iff (by omega : 0 < r) |>.mpr this
        omega)

theorem digitsBE_zero_single {r : Nat} : digitsBE r 0 = ['0'] := by
  have : (0 : Nat) < r ∨ r ≤ 1 := by omega
  rw [digitsBE_lt this]; rfl

/-! ## Non-digit characters -/

theorem rustToDigit_colon {r : Nat} : rustToDigit r ':' = none := by
  simp +decide [rustToDigit]

theorem rustToDigit_dot {r : Nat} : rustToDigit r '.' = none := by
  simp +decide [rustToDigit]

theorem rustToDigit_rbracket {r : Nat} : rustToDigit r ']' = none := by
  simp +decide [rustToDigit]

theorem rustToDigit_lbracket {r : Nat} : rustToDigit r '[' = none := by
  simp +decide [rustToDigit]

theorem rustToDigit_minus {r : Nat} : rustToDigit r '-' = none := by
  simp +decide [rustToDigit]

/-! ## `read_number` consumes exactly a printed digit string -/

theorem readNumberLoop_digits {r maxVal : Nat} {maxDigits : Option Nat}
    (hr2 : 2 ≤ r) (hr16 : r ≤ 16) :
    ∀ n acc count cs,
      acc * r ^ (digitsBE r n).length + n < maxVal →
      (∀ m, maxDigits = some m → count + (digitsBE r n).length ≤ m) →
      readNumberLoop r maxVal maxDigits (digitsBE r n ++ cs) acc count
        = readNumberLoop r maxVal maxDigits cs
            (acc * r ^ (digitsBE r n).length + n) (count + (digitsBE r n).length) := by
  intro n
  induction n using Nat.strong_induction_on with
  | _ n ih =>
    intro acc count cs hbound hcount
    by_cases hn : n < r
    · rw [digitsBE_lt (Or.inl hn)] at hbound hcount ⊢
      simp only [List.length_cons, List.length_nil, zero_add, pow_one] at hbound hcount ⊢
      have hd := rustToDigit_digitChar hr16 hn
      cases hmd : maxDigits with
      | none =>
        simp only [List.cons_append, readNumberLoop, hd]
        rw [if_pos hbound]
        rfl
      | some m =>
        have hcm := hcount m hmd
        simp only [List.cons_append, readNumberLoop, hd]
        rw [if_pos hbound, if_neg (by omega)]
        rfl
    · have hr_le : r ≤ n := by omega
      have hdigits := digitsBE_ge hr2 hr_le
      have hdivlt : n / r < n := Nat.div_lt_self (by omega) (by omega)
      rw [hdigits] at hbound hcount ⊢
      simp only [List.length_append, List.length_cons, List.length_nil, zero_add]
        at hbound hcount ⊢
      set Lp := (digitsBE r (n / r)).length with hLp
      have hmod : n % r < r := Nat.mod_lt _ (by omega)
      have hkey : acc * r ^ (Lp + 1) + n = (acc * r ^ Lp + n / r) * r + n % r := by
        calc acc * r ^ (Lp + 1) + n
            = acc * (r ^ Lp * r) + (n / r * r + n % r) := by
              rw [pow_succ, Nat.div_add_mod']
          _ = (acc * r ^ Lp + n / r) * r + n % r := by ring
      have hboundIH : acc * r ^ Lp + n / r < maxVal := by
        have hle : acc * r ^ Lp + n / r ≤ (acc * r ^ Lp + n / r) * r + n % r := by
          have := Nat.le_mul_of_pos_right (acc * r ^ Lp + n / r) (by omega : 0 < r)
          omega
        rw [hkey] at hbound
        omega
      have hcountIH : ∀ m, maxDigits = some m → count + Lp ≤ m := by
        intro m hm
        have := hcount m hm
        omega
      rw [List.append_assoc, List.singleton_append]
      rw [ih (n / r) hdivlt acc count (digitChar (n % r) :: cs) hboundIH hcountIH]
      have hd := rustToDigit_digitChar hr16 hmod
      have hlt : (acc * r ^ Lp + n / r) * r + n % r < maxVal := hkey ▸ hbound
      cases hmd : maxDigits with
      | none =>
        simp only [readNumberLoop, hd]
        rw [if_pos hlt, ← hkey]
        congr 1
      | some m =>
        have hcm := hcount m hmd
        simp only [readNumberLoop, hd]
        rw [if_pos hlt, if_neg (by omega), ← hkey]
        congr 1

theorem readNumberLoop_stop {r maxVal : Nat} {maxDigits : Option Nat} {cs : List Char}
    (h : HeadNotDigit r cs) (acc count : Nat) :
    readNumberLoop r maxVal maxDigits cs acc count = some (acc, count, cs) := by
  cases cs with
  | nil => rfl
  | cons c cs' =>
    have := h c rfl
    simp [readNumberLoop, this]

theorem readNumber_digits {r : Nat} {maxDigits : Option Nat} {az : Bool} {maxVal : Nat}
    (hr2 : 2 ≤ r) (hr16 : r ≤ 16) {n : Nat} (hn : n < maxVal)
    (hlen : ∀ m, maxDigits = some m → (digitsBE r n).length ≤ m)
    {cs : List Char} (hcs : HeadNotDigit r cs) :
    readNumber r maxDigits az maxVal (digitsBE r n ++ cs) = some (n, cs) := by
  have hloop := readNumberLoop_digits hr2 hr16 n 0 0 cs
    (by simpa using hn) (by intro m hm; simpa using hlen m hm)
  simp only [zero_mul, zero_add] at hloop
  have hL : (digitsBE r n).length ≠ 0 := by
    intro h
    exact digitsBE_ne_nil (List.length_eq_zero.mp h)
  unfold readNumber
  rw [hloop, readNumberLoop_stop hcs]
  simp only [if_neg hL]
  rw [if_neg ?hcond]
  case hcond =>
    rintro ⟨-, hzero, hgt⟩
    rw [List.head?_append_of_ne_nil _ digitsBE_ne_nil] at hzero
    by_cases hn0 : n = 0
    · subst hn0
      rw [digitsBE_zero_single] at hgt
      simp at hgt
    · exact digitsBE_head_ne_zero hr2 hr16 n hn0 hzero

/-! ## `from_str_radix` parses a printed decimal string -/

theorem parseUnsignedLoop_digits {maxVal : Nat} :
    ∀ n acc cs,
      acc * 10 ^ (digitsBE 10 n).length + n < maxVal →
      parseUnsignedLoop maxVal (digitsBE 10 n ++ cs) acc
        = parseUnsignedLoop maxVal cs (acc * 10 ^ (digitsBE 10 n).length + n) := by
  intro n
  induction n using Nat.strong_induction_on with
  | _ n ih =>
    intro acc cs hbound
    by_cases hn : n < 10
    · rw [digitsBE_lt (Or.inl hn)] at hbound ⊢
      simp only [List.length_cons, List.length_nil, zero_add, pow_one] at hbound ⊢
      have hd := rustToDigit_digitChar (by omega : (10 : Nat) ≤ 16) hn
      simp only [List.cons_append, parseUnsignedLoop, hd]
      rw [if_pos hbound]
      rfl
    · have hdigits := digitsBE_ge (by omega) (by omega : 10 ≤ n)
      have hdivlt : n / 10 < n := Nat.div_lt_self (by omega) (by omega)
      rw [hdigits] at hbound ⊢
      simp only [List.length_append, List.length_cons, List.length_nil, zero_add] at hbound ⊢
      set Lp := (digitsBE 10 (n / 10)).length with hLp
      have hmod : n % 10 < 10 := Nat.mod_lt _ (by omega)
      have hkey : acc * 10 ^ (Lp + 1) + n = (acc * 10 ^ Lp + n / 10) * 10 + n % 10 := by
        calc acc * 10 ^ (Lp + 1) + n
            = acc * (10 ^ Lp * 10) + (n / 10 * 10 + n % 10) := by
              rw [pow_succ, Nat.div_add_mod']
          _ = (acc * 10 ^ Lp + n / 10) * 10 + n % 10 := by ring
      have hboundIH : acc * 10 ^ Lp + n / 10 < maxVal := by
        rw [hkey] at hbound
        omega
      rw [List.append_assoc, List.singleton_append]
      rw [ih (n / 10) hdivlt acc (digitChar (n % 10) :: cs) hboundIH]
      have hd := rustToDigit_digitChar (by omega : (10 : Nat) ≤ 16) hmod
      have hlt : (acc * 10 ^ Lp + n / 10) * 10 + n % 10 < maxVal := hkey ▸ hbound
      simp only [parseUnsignedLoop, hd]
      rw [if_pos hlt, ← hkey]

theorem rustParseUnsignedList_decShow {maxVal n : Nat} (hn : n < maxVal) :
    rustParseUnsignedList maxVal (decShow n) = some n := by
  obtain ⟨c, cs', hcons⟩ : ∃ c cs', decShow n = c :: cs' := by
    cases h : decShow n with
    | nil => exact absurd h digitsBE_ne_nil
    | cons c cs' => exact ⟨c, cs', rfl⟩
  have hmem : c ∈ digitsBE 10 n := by
    rw [show digitsBE 10 n = decShow n from rfl, hcons]
    simp
  obtain ⟨d, hd, rfl⟩ := digitsBE_mem (by omega) n c hmem
  have hspec := digitChar_not_special (by omega : d < 16)
  have hloop : parseUnsignedLoop maxVal (digitsBE 10 n) 0 = some n := by
    have := parseUnsignedLoop_digits n 0 [] (by simpa using hn)
    simpa [parseUnsignedLoop] using this
  rw [hcons]
  simp only [rustParseUnsignedList, if_neg hspec.1, if_neg hspec.2.1]
  rw [← hcons]
  exact hloop

theorem parseUnsignedLoop_none_of_mem {maxVal : Nat} {c : Char} (hc : rustToDigit 10 c = none) :
    ∀ cs acc, c ∈ cs → parseUnsignedLoop maxVal cs acc = none := by
  intro cs
  induction cs with
  | nil => simp
  | cons c0 cs ih =>
    intro acc hmem
    cases hd : rustToDigit 10 c0 with
    | none => simp [parseUnsignedLoop, hd]
    | some d =>
      have htail : c ∈ cs := by
        rcases List.mem_cons.mp hmem with rfl | h
        · rw [hd] at hc; cases hc
        · exact h
      by_cases hlt : acc * 10 + d < maxVal
      · simp [parseUnsignedLoop, hd, hlt, ih _ htail]
      · simp [parseUnsignedLoop, hd, hlt]

theorem rustParseUnsignedList_none_of_mem {maxVal : Nat} {c : Char} {cs : List Char}
    (hmem : c ∈ cs) (hc : rustToDigit 10 c = none) (hplus : c ≠ '+') :
    rustParseUnsignedList maxVal cs = none := by
  cases cs with
  | nil => simp at hmem
  | cons c0 rest =>
    by_cases h0 : c0 = '+'
    · subst h0
      have htail : c ∈ rest := by
        rcases List.mem_cons.mp hmem with rfl | h
        · exact absurd rfl hplus
        · exact h
      cases rest with
      | nil => simp at htail
      | cons c1 rest' =>
        simp only [rustParseUnsignedList, if_pos rfl]
        exact parseUnsignedLoop_none_of_mem hc _ _ htail
    · by_cases h1 : c0 = '-'
      · subst h1
        simp +decide [rustParseUnsignedList]
      · simp only [rustParseUnsignedList, if_neg h0, if_neg h1]
        exact parseUnsignedLoop_none_of_mem hc _ _ hmem

/-! ## Failure and remainder facts for `read_number` -/

theorem headNotDigit_nil {r : Nat} : HeadNotDigit r [] := by
  intro c h
  cases h

theorem headNotDigit_cons {r : Nat} {c : Char} (h : rustToDigit r c = none) (cs : List Char) :
    HeadNotDigit r (c :: cs) := by
  intro c' h'
  simp only [List.head?_cons, Option.some.injEq] at h'
  rw [← h']
  exact h

theorem readNumber_none_head {r : Nat} {md : Option Nat} {az : Bool} {mv : Nat}
    {cs : List Char} (h : HeadNotDigit r cs) : readNumber r md az mv cs = none := by
  unfold readNumber
  rw [readNumberLoop_stop h]
  simp

theorem readNumberLoop_rest {r mv : Nat} {md : Option Nat} :
    ∀ cs acc count v cnt rest,
      readNumberLoop r mv md cs acc count = some (v, cnt, rest) →
      rest = cs.drop ((cs.takeWhile fun c => (rustToDigit r c).isSome).length) := by
  intro cs
  induction cs with
  | nil =>
    intro acc count v cnt rest h
    simp only [readNumberLoop, Option.some.injEq, Prod.mk.injEq] at h
    simp [← h.2.2]
  | cons c cs ih =>
    intro acc count v cnt rest h
    cases hd : rustToDigit r c with
    | none =>
      simp only [readNumberLoop, hd, Option.some.injEq, Prod.mk.injEq] at h
      simp [hd, ← h.2.2]
    | some d =>
      simp only [readNumberLoop, hd] at h
      by_cases hlt : acc * r + d < mv
      · rw [if_pos hlt] at h
        have htail : readNumberLoop r mv md cs (acc * r + d) (count + 1) = some (v, cnt, rest) := by
          split at h
          · rename_i m
            split_ifs at h with hm
            exact h
          · exact h
        have := ih _ _ _ _ _ htail
        simp [hd, this]
      · rw [if_neg hlt] at h
        cases h

theorem readNumber_rest {r mv : Nat} {md : Option Nat} {az : Bool} {cs : List Char}
    {v : Nat} {rest : List Char} (h : readNumber r md az mv cs = some (v, rest)) :
    rest = cs.drop ((cs.takeWhile fun c => (rustToDigit r c).isSome).length) := by
  unfold readNumber at h
  cases hloop : readNumberLoop r mv md cs 0 0 with
  | none => rw [hloop] at h; cases h
  | some t =>
    obtain ⟨v', cnt, rest'⟩ := t
    rw [hloop] at h
    simp only at h
    split_ifs at h
    simp only [Option.some.injEq, Prod.mk.injEq] at h
    rw [← h.2]
    exact readNumberLoop_rest cs 0 0 v' cnt rest' hloop

/-! ## `read_ipv4_addr` -/

theorem expectChar_cons {t : Char} {cs : List Char} : expectChar t (t :: cs) = some cs := by
  simp [expectChar]

theorem expectChar_none {t : Char} {cs : List Char} (h : cs.head? ≠ some t) :
    expectChar t cs = none := by
  cases cs with
  | nil => rfl
  | cons c cs' =>
    simp only [List.head?_cons, ne_eq, Option.some.injEq] at h
    simp [expectChar, h]

theorem readIpv4_none_head {cs : List Char} (h : HeadNotDigit 10 cs) : readIpv4 cs = none := by
  unfold readIpv4
  rw [readNumber_none_head h]
  rfl

theorem boundary_hex :
    ∀ xs ys : List Char, (∀ ch ∈ xs, (rustToDigit 16 ch).isSome = true) →
      (ys.head? = none ∨ ∃ c, ys.head? = some c ∧ rustToDigit 10 c = none ∧ c ≠ '.') →
      ((xs ++ ys).drop (((xs ++ ys).takeWhile fun ch => (rustToDigit 10 ch).isSome).length)).head?
        ≠ some '.' := by
  intro xs
  induction xs with
  | nil =>
    intro ys _ hy
    rcases hy with hy | ⟨c, hy, hc, hdot⟩
    · cases ys with
      | nil => simp
      | cons c ys' => cases hy
    · cases ys with
      | nil => cases hy
      | cons c0 ys' =>
        simp only [List.head?_cons, Option.some.injEq] at hy
        subst hy
        simp [List.takeWhile_cons, hc, hdot]
  | cons x xs ih =>
    intro ys hx hy
    by_cases hxd : (rustToDigit 10 x).isSome = true
    · simp only [List.cons_append]
      rw [@List.takeWhile_cons_of_pos Char (fun ch => (rustToDigit 10 ch).isSome) x (xs ++ ys) hxd]
      simp only [List.length_cons, List.drop_succ_cons]
      exact ih ys (fun ch h => hx ch (List.mem_cons_of_mem _ h)) hy
    · have hx16 := hx x (List.mem_cons_self _ _)
      simp only [List.cons_append]
      rw [@List.takeWhile_cons_of_neg Char (fun ch => (rustToDigit 10 ch).isSome) x (xs ++ ys) hxd]
      simp only [List.length_nil, List.drop_zero, List.head?_cons, ne_eq, Option.some.injEq]
      intro hdot
      rw [hdot, rustToDigit_dot] at hx16
      simp at hx16

theorem readIpv4_none_hex {xs ys : List Char}
    (hx : ∀ ch ∈ xs, (rustToDigit 16 ch).isSome = true)
    (hy : ys.head? = none ∨ ∃ c, ys.head? = some c ∧ rustToDigit 10 c = none ∧ c ≠ '.') :
    readIpv4 (xs ++ ys) = none := by
  unfold readIpv4
  cases h1 : readNumber 10 (some 3) false 256 (xs ++ ys) with
  | none => rfl
  | some t =>
    obtain ⟨v, rest⟩ := t
    have hrest := readNumber_rest h1
    have hhead : rest.head? ≠ some '.' := by
      rw [hrest]
      exact boundary_hex xs ys hx hy
    simp only [Option.bind_eq_bind, Option.some_bind]
    rw [expectChar_none hhead]
    rfl

theorem readIpv4_chars {v : Ipv4Addr} (hwf : v.wf) {cs : List Char} (hcs : HeadNotDigit 10 cs) :
    readIpv4 (ipv4Chars v ++ cs) = some (v, cs) := by
  obtain ⟨a, b, c, d⟩ := v
  obtain ⟨ha, hb, hc, hd⟩ := hwf
  have hlen : ∀ x : Nat, x < 256 → ∀ m, (some 3 : Option Nat) = some m → (digitsBE 10 x).length ≤ m := by
    intro x hx m hm
    cases hm
    exact digitsBE_length_le (by omega) 3 x (by omega) (by omega)
  have h1 : readNumber 10 (some 3) false 256
      (digitsBE 10 a ++ ('.' :: (digitsBE 10 b ++ ('.' :: (digitsBE 10 c ++
        ('.' :: (digitsBE 10 d ++ cs))))))) =
      some (a, '.' :: (digitsBE 10 b ++ ('.' :: (digitsBE 10 c ++ ('.' :: (digitsBE 10 d ++ cs)))))) :=
    readNumber_digits (by omega) (by omega) ha (hlen a ha) (headNotDigit_cons rustToDigit_dot _)
  have h2 : readNumber 10 (some 3) false 256
      (digitsBE 10 b ++ ('.' :: (digitsBE 10 c ++ ('.' :: (digitsBE 10 d ++ cs))))) =
      some (b, '.' :: (digitsBE 10 c ++ ('.' :: (digitsBE 10 d ++ cs)))) :=
    readNumber_digits (by omega) (by omega) hb (hlen b hb) (headNotDigit_cons rustToDigit_dot _)
  have h3 : readNumber 10 (some 3) false 256
      (digitsBE 10 c ++ ('.' :: (digitsBE 10 d ++ cs))) =
      some (c, '.' :: (digitsBE 10 d ++ cs)) :=
    readNumber_digits (by omega) (by omega) hc (hlen c hc) (headNotDigit_cons rustToDigit_dot _)
  have h4 : readNumber 10 (some 3) false 256 (digitsBE 10 d ++ cs) = some (d, cs) :=
    readNumber_digits (by omega) (by omega) hd (hlen d hd) hcs
  unfold readIpv4 ipv4Chars
  simp only [decShow, List.append_assoc, List.cons_append]
  rw [h1]
  simp only [Option.bind_eq_bind, Option.some_bind, expectChar_cons]
  rw [h2]
  simp only [Option.some_bind, expectChar_cons]
  rw [h3]
  simp only [Option.some_bind, expectChar_cons]
  rw [h4]
  rfl

/-! ## `read_ipv6_addr`: group lists -/

theorem hexShow_mem {g : Nat} : ∀ ch ∈ hexShow g, (rustToDigit 16 ch).isSome = true := by
  intro ch h
  obtain ⟨d, hd, rfl⟩ := digitsBE_mem (by omega) g ch h
  rw [rustToDigit_digitChar (by omega) hd]
  rfl

theorem stopTok_headNotDigit {r : Nat} {cs : List Char} (h : StopTok cs) : HeadNotDigit r cs := by
  rcases h with rfl | hh | ⟨hh, _⟩
  · exact headNotDigit_nil
  · intro c hc
    rw [hh] at hc
    cases hc
    exact rustToDigit_rbracket
  · intro c hc
    rw [hh] at hc
    cases hc
    exact rustToDigit_colon

theorem stopTok_boundary {cs : List Char} (h : StopTok cs) :
    cs.head? = none ∨ ∃ c, cs.head? = some c ∧ rustToDigit 10 c = none ∧ c ≠ '.' := by
  rcases h with rfl | hh | ⟨hh, _⟩
  · left; rfl
  · right; exact ⟨']', hh, rustToDigit_rbracket, by decide⟩
  · right; exact ⟨':', hh, rustToDigit_colon, by decide⟩

theorem readGroupsAux_stop {first : Bool} {slots : Nat} {cs : List Char} (h : StopTok cs) :
    readGroupsAux first slots cs = ([], false, cs) := by
  cases slots with
  | zero => rfl
  | succ slots' =>
    have h4 : readIpv4 cs = none := readIpv4_none_head (stopTok_headNotDigit h)
    have h16 : readNumber 16 (some 4) true 65536 cs = none :=
      readNumber_none_head (stopTok_headNotDigit h)
    rcases h with rfl | hh | ⟨hh, hh2⟩
    · cases first <;> simp [readGroupsAux, h4, h16, ite_self]
    · obtain ⟨t, rfl⟩ : ∃ t, cs = ']' :: t := by
        cases cs with
        | nil => cases hh
        | cons c t =>
          simp only [List.head?_cons, Option.some.injEq] at hh
          exact ⟨t, by rw [hh]⟩
      cases first <;> simp +decide [readGroupsAux, h4, h16, ite_self]
    · obtain ⟨u, rfl⟩ : ∃ u, cs = ':' :: ':' :: u := by
        cases cs with
        | nil => cases hh
        | cons c t =>
          simp only [List.head?_cons, Option.some.injEq] at hh
          cases t with
          | nil => cases hh2
          | cons c2 u =>
            simp only [List.tail_cons, List.head?_cons, Option.some.injEq] at hh2
            exact ⟨u, by rw [hh, hh2]⟩
      have h4t : readIpv4 (':' :: u) = none := readIpv4_none_head (headNotDigit_cons rustToDigit_colon _)
      have h16t : readNumber 16 (some 4) true 65536 (':' :: u) = none :=
        readNumber_none_head (headNotDigit_cons rustToDigit_colon _)
      cases first <;> simp [readGroupsAux, h4, h16, h4t, h16t, ite_self]

theorem readGroupsAux_fmt :
    ∀ gs : List Nat, (∀ g ∈ gs, g < 65536) →
      ∀ (first : Bool) (slots : Nat) (cs : List Char),
        gs.length ≤ slots → StopTok cs →
        readGroupsAux first slots ((if first then fmtGroups gs else fmtGroupsTail gs) ++ cs)
          = (gs, false, cs) := by
  intro gs
  induction gs with
  | nil =>
    intro _ first slots cs _ hstop
    cases first <;> simpa [fmtGroups, fmtGroupsTail] using readGroupsAux_stop hstop
  | cons g gs' ih =>
    intro hwf first slots cs hlen hstop
    cases slots with
    | zero => simp at hlen
    | succ slots' =>
      have hg : g < 65536 := hwf g (List.mem_cons_self _ _)
      have hyscond : (fmtGroupsTail gs' ++ cs).head? = none ∨
          ∃ c, (fmtGroupsTail gs' ++ cs).head? = some c ∧ rustToDigit 10 c = none ∧ c ≠ '.' := by
        cases gs' with
        | nil => simpa [fmtGroupsTail] using stopTok_boundary hstop
        | cons g2 gs'' =>
          right
          exact ⟨':', by simp [fmtGroupsTail], rustToDigit_colon, by decide⟩
      have hipv4 : readIpv4 (hexShow g ++ (fmtGroupsTail gs' ++ cs)) = none :=
        readIpv4_none_hex hexShow_mem hyscond
      have hnotdig : HeadNotDigit 16 (fmtGroupsTail gs' ++ cs) := by
        cases gs' with
        | nil =>
          have h16 : HeadNotDigit 16 cs := stopTok_headNotDigit hstop
          simpa [fmtGroupsTail] using h16
        | cons g2 gs'' =>
          simp only [fmtGroupsTail, List.cons_append]
          exact headNotDigit_cons rustToDigit_colon _
      have hnum : readNumber 16 (some 4) true 65536 (hexShow g ++ (fmtGroupsTail gs' ++ cs))
          = some (g, fmtGroupsTail gs' ++ cs) := by
        apply readNumber_digits (by omega) (by omega) hg ?hl hnotdig
        case hl =>
          intro m hm
          cases hm
          exact digitsBE_length_le (by omega) 4 g (by omega) (by norm_num; exact hg)
      have hrec : readGroupsAux false slots' (fmtGroupsTail gs' ++ cs) = (gs', false, cs) := by
        simpa using ih (fun g hg => hwf g (List.mem_cons_of_mem _ hg)) false slots' cs
          (by simpa using hlen) hstop
      cases first with
      | true =>
        simp only [if_true, fmtGroups, List.append_assoc]
        simp [readGroupsAux, hipv4, hnum, hrec, ite_self]
      | false =>
        simp only [if_false, fmtGroupsTail, List.cons_append, List.append_assoc]
        simp [readGroupsAux, hipv4, hnum, hrec, ite_self]

/-! ## The longest zero run of the IPv6 display -/

theorem zeroRunFold_spec (segs : List Nat) :
    ∀ rest i longest current,
      segs.drop i = rest → i ≤ segs.length →
      ZeroSpan segs longest →
      (current.2 = 0 ∨ (current.1 + current.2 = i ∧ ZeroSpan segs current)) →
      ZeroSpan segs (zeroRunFold rest i longest current) := by
  intro rest
  induction rest with
  | nil =>
    intro i longest current _ _ hl _
    simpa [zeroRunFold] using hl
  | cons seg rest' ih =>
    intro i longest current hdrop hi hl hc
    have hseg : segs[i]? = some seg := by
      have h : (segs.drop i).head? = some seg := by rw [hdrop]; rfl
      rw [List.head?_drop] at h
      exact h
    have hilt : i < segs.length := by
      by_contra hge
      have hnil : segs.drop i = [] := List.drop_eq_nil_of_le (by omega)
      rw [hdrop] at hnil
      cases hnil
    have hdrop' : segs.drop (i + 1) = rest' := by
      rw [← List.tail_drop, hdrop]
      rfl
    by_cases hz : seg = 0
    · subst hz
      simp only [zeroRunFold, if_pos rfl]
      have hc'span : (if current.2 = 0 then (i, 1) else (current.1, current.2 + 1)).1 +
            (if current.2 = 0 then (i, 1) else (current.1, current.2 + 1)).2 = i + 1 ∧
          ZeroSpan segs (if current.2 = 0 then (i, 1) else (current.1, current.2 + 1)) := by
        by_cases h0 : current.2 = 0
        · rw [if_pos h0]
          refine ⟨by simp, by omega, ?_⟩
          intro j hj
          interval_cases j
          simpa using hseg
        · rw [if_neg h0]
          rcases hc with hc | ⟨hsum, hspan⟩
          · exact absurd hc h0
          refine ⟨by simp; omega, by simp; omega, ?_⟩
          intro j hj
          simp only at hj ⊢
          by_cases hjlt : j < current.2
          · exact hspan.2 j hjlt
          · have hj' : j = current.2 := by omega
            subst hj'
            have : current.1 + current.2 = i := hsum
            rw [this]
            simpa using hseg
      apply ih (i + 1) _ _ hdrop' (by omega) ?_ (Or.inr hc'span)
      by_cases hgt : (if current.2 = 0 then (i, 1) else (current.1, current.2 + 1)).2 > longest.2
      · rw [if_pos hgt]
        exact hc'span.2
      · rw [if_neg hgt]
        exact hl
    · simp only [zeroRunFold, if_neg hz]
      exact ih (i + 1) longest (0, 0) hdrop' (by omega) hl (Or.inl rfl)

theorem longestZeroRun_spec (segs : List Nat) : ZeroSpan segs (longestZeroRun segs) := by
  unfold longestZeroRun
  exact zeroRunFold_spec segs segs 0 (0, 0) (0, 0) (by simp) (by omega)
    ⟨by simp, by omega⟩ (Or.inl rfl)

theorem zeroSpan_decomp {xs : List Nat} {s l : Nat} (_h1 : s + l ≤ xs.length)
    (h2 : ∀ j < l, xs[s + j]? = some 0) :
    xs = xs.take s ++ List.replicate l 0 ++ xs.drop (s + l) := by
  have hmid : (xs.drop s).take l = List.replicate l 0 := by
    apply List.ext_getElem?
    intro i
    by_cases hil : i < l
    · rw [List.getElem?_take, if_pos hil, List.getElem?_drop, h2 i hil]
      simp [hil]
    · rw [List.getElem?_take, if_neg hil]
      rw [List.getElem?_replicate]
      simp [hil]
  calc xs = xs.take s ++ xs.drop s := (List.take_append_drop s xs).symm
    _ = xs.take s ++ ((xs.drop s).take l ++ (xs.drop s).drop l) := by
        rw [List.take_append_drop, List.take_append_drop]
        exact (List.take_append_drop s xs).symm
    _ = xs.take s ++ (List.replicate l 0 ++ xs.drop (s + l)) := by
        rw [hmid, List.drop_drop]
    _ = xs.take s ++ List.replicate l 0 ++ xs.drop (s + l) := by
        rw [List.append_assoc]

/-! ## IPv6 display parses back -/

theorem digitsBE_head_decomp {r n : Nat} (hr2 : 2 ≤ r) (_hr16 : r ≤ 16) :
    ∃ d tl, d < r ∧ digitsBE r n = digitChar d :: tl := by
  cases hcons : digitsBE r n with
  | nil => exact absurd hcons digitsBE_ne_nil
  | cons c tl =>
    have hmem : c ∈ digitsBE r n := by rw [hcons]; simp
    obtain ⟨d, hd, rfl⟩ := digitsBE_mem hr2 n c hmem
    exact ⟨d, tl, hd, rfl⟩

theorem ipv4Chars_head_decomp (v : Ipv4Addr) :
    ∃ d tl, d < 10 ∧ ipv4Chars v = digitChar d :: tl := by
  obtain ⟨d, tl, hd, hcons⟩ :=
    (digitsBE_head_decomp (by omega) (by omega) : ∃ d tl, d < 10 ∧ digitsBE 10 v.a = digitChar d :: tl)
  refine ⟨d, tl ++ '.' :: decShow v.b ++ '.' :: decShow v.c ++ '.' :: decShow v.d, hd, ?_⟩
  simp only [ipv4Chars, decShow, hcons, List.cons_append, List.append_assoc]

theorem stopTok_of_bracket {cs : List Char} (h : cs = [] ∨ cs.head? = some ']') : StopTok cs := by
  rcases h with rfl | h
  · exact Or.inl rfl
  · exact Or.inr (Or.inl h)

theorem readIpv6_chars {v : Ipv6Addr} (hwf : v.wf) {cs : List Char}
    (hstop : cs = [] ∨ cs.head? = some ']') :
    readIpv6 (ipv6Chars v ++ cs) = some (v, cs) := by
  obtain ⟨segs⟩ := v
  have hlen : segs.length = 8 := hwf.1
  have hbound : ∀ g ∈ segs, g < 65536 := hwf.2
  have hstop' : StopTok cs := stopTok_of_bracket hstop
  by_cases hz0 : segs = [0, 0, 0, 0, 0, 0, 0, 0]
  · subst hz0
    rcases hstop with rfl | hh
    · rfl
    · cases cs with
      | nil => cases hh
      | cons c cs' =>
        have hc : c = ']' := by injection hh
        subst hc
        rfl
  · by_cases hz1 : segs = [0, 0, 0, 0, 0, 0, 0, 1]
    · subst hz1
      rcases hstop with rfl | hh
      · rfl
      · cases cs with
        | nil => cases hh
        | cons c cs' =>
          have hc : c = ']' := by injection hh
          subst hc
          rfl
    · cases hmap : Ipv6Addr.toIpv4 ⟨segs⟩ with
      | some v4 =>
        unfold Ipv6Addr.toIpv4 at hmap
        split at hmap
        · rename_i g6 g7 heq
          injection hmap with hv
          subst heq
          subst hv
          have hg6 : g6 < 65536 := hbound g6 (by simp)
          have hg7 : g7 < 65536 := hbound g7 (by simp)
          have hv4wf : Ipv4Addr.wf ⟨g6 / 256, g6 % 256, g7 / 256, g7 % 256⟩ := by
            refine ⟨?_, ?_, ?_, ?_⟩ <;> simp <;> omega
          have hC : readIpv4 (ipv4Chars ⟨g6 / 256, g6 % 256, g7 / 256, g7 % 256⟩ ++ cs)
              = some (⟨g6 / 256, g6 % 256, g7 / 256, g7 % 256⟩, cs) :=
            readIpv4_chars hv4wf (stopTok_headNotDigit hstop')
          have t7 : readGroupsAux true 7
              (ipv4Chars ⟨g6 / 256, g6 % 256, g7 / 256, g7 % 256⟩ ++ cs)
              = ([g6, g7], true, cs) := by
            rw [readGroupsAux]
            norm_num
            rw [hC]
            simp [Nat.div_add_mod']
            intro rest hcontra
            obtain ⟨d, tl, hd, hcons⟩ :=
              ipv4Chars_head_decomp ⟨g6 / 256, g6 % 256, g7 / 256, g7 % 256⟩
            rw [hcons, List.cons_append] at hcontra
            have hdc : digitChar d = ':' := (List.cons.injEq _ _ _ _ ▸ hcontra).1
            exact (digitChar_not_special (by omega)).2.2.2.1 hdc
          have s8 : readGroupsAux true 8
              (':' :: ':' :: (ipv4Chars ⟨g6 / 256, g6 % 256, g7 / 256, g7 % 256⟩ ++ cs))
              = ([], false, ':' :: ':' ::
                  (ipv4Chars ⟨g6 / 256, g6 % 256, g7 / 256, g7 % 256⟩ ++ cs)) :=
            readGroupsAux_stop (Or.inr (Or.inr ⟨rfl, rfl⟩))
          have hdisp : ipv6Chars ⟨[0, 0, 0, 0, 0, 0, g6, g7]⟩ ++ cs
              = ':' :: ':' :: (ipv4Chars ⟨g6 / 256, g6 % 256, g7 / 256, g7 % 256⟩ ++ cs) := by
            unfold ipv6Chars
            rw [if_neg hz0, if_neg hz1]
            rfl
          rw [hdisp]
          simp [readIpv6, s8, t7, List.replicate]
        · rename_i g6 g7 heq
          injection hmap with hv
          subst heq
          subst hv
          have hg6 : g6 < 65536 := hbound g6 (by simp)
          have hg7 : g7 < 65536 := hbound g7 (by simp)
          have hv4wf : Ipv4Addr.wf ⟨g6 / 256, g6 % 256, g7 / 256, g7 % 256⟩ := by
            refine ⟨?_, ?_, ?_, ?_⟩ <;> simp <;> omega
          have hC : readIpv4 (ipv4Chars ⟨g6 / 256, g6 % 256, g7 / 256, g7 % 256⟩ ++ cs)
              = some (⟨g6 / 256, g6 % 256, g7 / 256, g7 % 256⟩, cs) :=
            readIpv4_chars hv4wf (stopTok_headNotDigit hstop')
          have s6 : readGroupsAux false 6
              (':' :: (ipv4Chars ⟨g6 / 256, g6 % 256, g7 / 256, g7 % 256⟩ ++ cs))
              = ([g6, g7], true, cs) := by
            rw [readGroupsAux]
            norm_num
            rw [hC]
            simp [Nat.div_add_mod']
          have hA : readIpv4
              ('f' :: 'f' :: 'f' :: 'f' :: ':' ::
                (ipv4Chars ⟨g6 / 256, g6 % 256, g7 / 256, g7 % 256⟩ ++ cs)) = none :=
            readIpv4_none_head (headNotDigit_cons (by decide) _)
          have hB : readNumber 16 (some 4) true 65536
              (digitsBE 16 65535 ++ (':' :: (ipv4Chars ⟨g6 / 256, g6 % 256, g7 / 256, g7 % 256⟩ ++ cs)))
              = some (65535, ':' :: (ipv4Chars ⟨g6 / 256, g6 % 256, g7 / 256, g7 % 256⟩ ++ cs)) :=
            readNumber_digits (by omega) (by omega) (by omega)
              (fun m hm => by cases hm; decide) (headNotDigit_cons rustToDigit_colon _)
          have hB' : readNumber 16 (some 4) true 65536
              ('f' :: 'f' :: 'f' :: 'f' :: ':' ::
                (ipv4Chars ⟨g6 / 256, g6 % 256, g7 / 256, g7 % 256⟩ ++ cs))
              = some (65535, ':' :: (ipv4Chars ⟨g6 / 256, g6 % 256, g7 / 256, g7 % 256⟩ ++ cs)) := hB
          have s7 : readGroupsAux true 7
              ('f' :: 'f' :: 'f' :: 'f' :: ':' ::
                (ipv4Chars ⟨g6 / 256, g6 % 256, g7 / 256, g7 % 256⟩ ++ cs))
              = ([65535, g6, g7], true, cs) := by
            rw [readGroupsAux]
            norm_num
            rw [hA, hB']
            simp [s6]
            intro rest hcontra
            simp at hcontra
          have s8 : readGroupsAux true 8
              (':' :: ':' :: 'f' :: 'f' :: 'f' :: 'f' :: ':' ::
                (ipv4Chars ⟨g6 / 256, g6 % 256, g7 / 256, g7 % 256⟩ ++ cs))
              = ([], false, ':' :: ':' :: 'f' :: 'f' :: 'f' :: 'f' :: ':' ::
                (ipv4Chars ⟨g6 / 256, g6 % 256, g7 / 256, g7 % 256⟩ ++ cs)) :=
            readGroupsAux_stop (Or.inr (Or.inr ⟨rfl, rfl⟩))
          have hdisp : ipv6Chars ⟨[0, 0, 0, 0, 0, 65535, g6, g7]⟩ ++ cs
              = ':' :: ':' :: 'f' :: 'f' :: 'f' :: 'f' :: ':' ::
                (ipv4Chars ⟨g6 / 256, g6 % 256, g7 / 256, g7 % 256⟩ ++ cs) := by
            unfold ipv6Chars
            rw [if_neg hz0, if_neg hz1]
            rfl
          rw [hdisp]
          simp [readIpv6, s8, s7, List.replicate]
        · cases hmap
      | none =>
        rcases hzeq : longestZeroRun segs with ⟨s, l⟩
        have hspan : ZeroSpan segs (s, l) := hzeq ▸ longestZeroRun_spec segs
        have hsl : s + l ≤ 8 := by
          have := hspan.1
          omega
        have hdisp : ipv6Chars ⟨segs⟩
            = if l > 1 then
                fmtGroups (segs.take s) ++ ':' :: ':' :: fmtGroups (segs.drop (s + l))
              else fmtGroups segs := by
          simp [ipv6Chars, hz0, hz1, hmap, hzeq]
        by_cases hcomp : l > 1
        · rw [hdisp, if_pos hcomp]
          have hslt : s ≤ 6 := by omega
          have htk : (segs.take s).length = s := by
            rw [List.length_take]
            omega
          have hdr : (segs.drop (s + l)).length = 8 - (s + l) := by
            rw [List.length_drop, hlen]
          have hHead := readGroupsAux_fmt (segs.take s)
            (fun g hg => hbound g (List.mem_of_mem_take hg)) true 8
            (':' :: ':' :: (fmtGroups (segs.drop (s + l)) ++ cs))
            (by omega) (Or.inr (Or.inr ⟨rfl, rfl⟩))
          simp only [if_true] at hHead
          have hTail := readGroupsAux_fmt (segs.drop (s + l))
            (fun g hg => hbound g (List.mem_of_mem_drop hg)) true (8 - (s + 1)) cs
            (by omega) hstop'
          simp only [if_true] at hTail
          have htext : (fmtGroups (segs.take s) ++ ':' :: ':' :: fmtGroups (segs.drop (s + l))) ++ cs
              = fmtGroups (segs.take s) ++ (':' :: ':' :: (fmtGroups (segs.drop (s + l)) ++ cs)) := by
            simp
          rw [htext]
          have hrepl : 8 - (segs.take s).length - (segs.drop (s + l)).length = l := by
            rw [htk, hdr]
            omega
          have hne8 : ¬((segs.take s).length = 8) := by omega
          simp only [readIpv6, hHead, hne8, if_false, hTail, htk, hdr]
          rw [if_neg (by omega : ¬(s = 8))]
          rw [if_neg (by decide : ¬(false = true))]
          simp only [Option.some.injEq, Prod.mk.injEq, Ipv6Addr.mk.injEq]
          constructor
          · rw [show 8 - s - (8 - (s + l)) = l by omega]
            exact (zeroSpan_decomp hspan.1 hspan.2).symm
          · trivial
        · rw [hdisp, if_neg hcomp]
          have hG := readGroupsAux_fmt segs hbound true 8 cs (by omega) hstop'
          simp only [if_true] at hG
          simp [readIpv6, hG, hlen]

/-! ## `FromStr` for the address types -/

theorem ipv6Parse_chars {v : Ipv6Addr} (hwf : v.wf) : ipv6Parse (ipv6Chars v) = some v := by
  have h : readIpv6 (ipv6Chars v ++ []) = some (v, []) := readIpv6_chars hwf (Or.inl rfl)
  rw [List.append_nil] at h
  simp [ipv6Parse, h]

theorem ipv4Parse_chars {v : Ipv4Addr} (hwf : v.wf) : ipv4Parse (ipv4Chars v) = some v := by
  have h : readIpv4 (ipv4Chars v ++ []) = some (v, []) := readIpv4_chars hwf headNotDigit_nil
  rw [List.append_nil] at h
  simp [ipv4Parse, h]

theorem ipv4Parse_none_head {cs : List Char} (h : HeadNotDigit 10 cs) : ipv4Parse cs = none := by
  simp [ipv4Parse, readIpv4_none_head h]

theorem ipv4Parse_leftover {v : Ipv4Addr} (hwf : v.wf) {c : Char} {rest : List Char}
    (hc : rustToDigit 10 c = none) :
    ipv4Parse (ipv4Chars v ++ c :: rest) = none := by
  have h : readIpv4 (ipv4Chars v ++ c :: rest) = some (v, c :: rest) :=
    readIpv4_chars hwf (headNotDigit_cons hc _)
  simp [ipv4Parse, h]

theorem readSocketAddrV6_none_head {c : Char} {cs : List Char} (h : c ≠ '[') :
    readSocketAddrV6 (c :: cs) = none := by
  unfold readSocketAddrV6
  split
  · rename_i cs1 heq
    rw [List.cons.injEq] at heq
    exact absurd heq.1 h
  · rfl

theorem readPort_digits {p : Nat} (hp : p < 65536) {cs : List Char} (hcs : HeadNotDigit 10 cs) :
    readPort (':' :: (digitsBE 10 p ++ cs)) = some (p, cs) := by
  simp only [readPort]
  exact readNumber_digits (by omega) (by omega) hp (fun m hm => by cases hm) hcs

theorem readPort_digits_nil {p : Nat} (hp : p < 65536) :
    readPort (':' :: digitsBE 10 p) = some (p, []) := by
  have h : readPort (':' :: (digitsBE 10 p ++ [])) = some (p, []) :=
    readPort_digits hp headNotDigit_nil
  rwa [List.append_nil] at h

theorem sockAddrParse_v4_port {v : Ipv4Addr} (hwf : v.wf) {p : Nat} (hp : p < 65536) :
    sockAddrParse (ipv4Chars v ++ ':' :: digitsBE 10 p) = some (.v4 v p) := by
  have h1 : readIpv4 (ipv4Chars v ++ ':' :: digitsBE 10 p) = some (v, ':' :: digitsBE 10 p) :=
    readIpv4_chars hwf (headNotDigit_cons rustToDigit_colon _)
  have h2 := readPort_digits_nil hp
  simp [sockAddrParse, readSocketAddr, readSocketAddrV4, h1, h2]

theorem sockAddrParse_v6_port {v : Ipv6Addr} (hwf : v.wf) {p : Nat} (hp : p < 65536) :
    sockAddrParse ('[' :: (ipv6Chars v ++ ']' :: ':' :: digitsBE 10 p)) = some (.v6 v p 0) := by
  have h0 : readIpv4 ('[' :: (ipv6Chars v ++ ']' :: ':' :: digitsBE 10 p)) = none :=
    readIpv4_none_head (headNotDigit_cons rustToDigit_lbracket _)
  have h1 : readIpv6 (ipv6Chars v ++ ']' :: ':' :: digitsBE 10 p)
      = some (v, ']' :: ':' :: digitsBE 10 p) :=
    readIpv6_chars hwf (Or.inr rfl)
  have h2 := readPort_digits_nil hp
  simp [sockAddrParse, readSocketAddr, readSocketAddrV4, readSocketAddrV6, readScopeId,
    h0, h1, h2]

theorem sockAddrParse_none_v4only {v : Ipv4Addr} (hwf : v.wf) :
    sockAddrParse (ipv4Chars v) = none := by
  have h1 : readIpv4 (ipv4Chars v) = some (v, []) := by
    have h : readIpv4 (ipv4Chars v ++ []) = some (v, []) := readIpv4_chars hwf headNotDigit_nil
    rwa [List.append_nil] at h
  obtain ⟨d, tl, hd, hcons⟩ := ipv4Chars_head_decomp v
  have h2 : readSocketAddrV6 (ipv4Chars v) = none := by
    rw [hcons]
    exact readSocketAddrV6_none_head (digitChar_not_special (by omega)).2.2.2.2.2
  simp [sockAddrParse, readSocketAddr, readSocketAddrV4, h1, h2, readPort]

theorem sockAddrParse_none_v6brackets {v : Ipv6Addr} (hwf : v.wf) :
    sockAddrParse ('[' :: (ipv6Chars v ++ [']'])) = none := by
  have h0 : readIpv4 ('[' :: (ipv6Chars v ++ [']'])) = none :=
    readIpv4_none_head (headNotDigit_cons rustToDigit_lbracket _)
  have h1 : readIpv6 (ipv6Chars v ++ [']']) = some (v, [']']) :=
    readIpv6_chars hwf (Or.inr rfl)
  simp [sockAddrParse, readSocketAddr, readSocketAddrV4, readSocketAddrV6, readScopeId,
    h0, h1, readPort]

/-! ## The `Tcp` parse chain -/

theorem dropPre_append : ∀ xs ys : List Char, dropPre xs (xs ++ ys) = some ys := by
  intro xs
  induction xs with
  | nil => intro ys; rfl
  | cons x xs ih => intro ys; simp [dropPre, ih]

theorem stripSuffixChar_concat {c : Char} {xs : List Char} :
    stripSuffixChar c (xs ++ [c]) = some xs := by
  simp [stripSuffixChar, List.getLast?_concat, List.dropLast_concat]

theorem tcpFromStr_strip {s : String} {value : List Char}
    (h : dropPre "tcp:".data s.data = some value) (hne : value ≠ []) :
    Tcp.fromStr s =
      match rustParseUnsignedList 65536 value with
      | some port => .ok (Tcp.fromPort port)
      | none =>
        match sockAddrParse value with
        | some addr => .ok (Tcp.ofSocketAddr addr)
        | none =>
          match ipv4Parse value with
          | some v4 => .ok (Tcp.fromIpv4 v4)
          | none =>
            match (dropPre ['['] value).bind (stripSuffixChar ']') with
            | none => .error ⟨⟨value⟩, "&str", "Ipv6Addr", false⟩
            | some inner =>
              match ipv6Parse inner with
              | some v6 => .ok (Tcp.fromIpv6 v6)
              | none => .error ⟨⟨inner⟩, "&str", "Ipv6Addr", true⟩ := by
  unfold Tcp.fromStr
  rw [h]
  cases value with
  | nil => exact absurd rfl hne
  | cons c t => rfl

theorem dot_mem_ipv4Chars (v : Ipv4Addr) : '.' ∈ ipv4Chars v := by
  simp [ipv4Chars]

theorem tcp_u16_fail_of_dot {v : Ipv4Addr} {rest : List Char} :
    rustParseUnsignedList 65536 (ipv4Chars v ++ rest) = none :=
  rustParseUnsignedList_none_of_mem (List.mem_append_left _ (dot_mem_ipv4Chars v))
    rustToDigit_dot (by decide)

theorem tcp_u16_fail_of_dot_nil {v : Ipv4Addr} :
    rustParseUnsignedList 65536 (ipv4Chars v) = none :=
  rustParseUnsignedList_none_of_mem (dot_mem_ipv4Chars v) rustToDigit_dot (by decide)

theorem tcp_u16_fail_lbracket {rest : List Char} :
    rustParseUnsignedList 65536 ('[' :: rest) = none :=
  rustParseUnsignedList_none_of_mem (List.mem_cons_self _ _) rustToDigit_lbracket (by decide)

/-- Round trip of `Tcp` (`FromStr` after `Display`) for every non-sentinel
well-formed value. -/
theorem tcpFromStr_display {t : Tcp} (hwf : t.wf) (hne : t.ip ≠ none ∨ t.port ≠ none) :
    Tcp.fromStr t.display = .ok t := by
  obtain ⟨ip, port⟩ := t
  cases ip with
  | none =>
    cases port with
    | none =>
      rcases hne with h | h <;> exact absurd rfl h
    | some p =>
      have hp : p < 65536 := hwf.2 p rfl
      have hdp : dropPre "tcp:".data (Tcp.display ⟨none, some p⟩).data = some (decShow p) :=
        dropPre_append _ _
      rw [tcpFromStr_strip hdp digitsBE_ne_nil]
      rw [show rustParseUnsignedList 65536 (decShow p) = some p from
        rustParseUnsignedList_decShow hp]
      rfl
  | some a =>
    have hipwf : IpAddr.wf a := hwf.1 a rfl
    cases a with
    | v4 v4 =>
      have hv4 : v4.wf := hipwf
      cases port with
      | none =>
        have hdp : dropPre "tcp:".data (Tcp.display ⟨some (.v4 v4), none⟩).data
            = some (ipv4Chars v4) := dropPre_append _ _
        have hnonempty : ipv4Chars v4 ≠ [] := by
          obtain ⟨d, tl, _, hcons⟩ := ipv4Chars_head_decomp v4
          rw [hcons]
          simp
        rw [tcpFromStr_strip hdp hnonempty]
        rw [tcp_u16_fail_of_dot_nil, sockAddrParse_none_v4only hv4, ipv4Parse_chars hv4]
        rfl
      | some p =>
        have hp : p < 65536 := hwf.2 p rfl
        have hdp : dropPre "tcp:".data (Tcp.display ⟨some (.v4 v4), some p⟩).data
            = some (ipv4Chars v4 ++ ':' :: decShow p) := by
          have h := dropPre_append "tcp:".data (ipv4Chars v4 ++ ':' :: decShow p)
          rw [← List.append_assoc] at h
          exact h
        have hnonempty : ipv4Chars v4 ++ ':' :: decShow p ≠ [] := by simp
        rw [tcpFromStr_strip hdp hnonempty]
        simp only [decShow]
        rw [tcp_u16_fail_of_dot, sockAddrParse_v4_port hv4 hp]
        rfl
    | v6 v6 =>
      have hv6 : v6.wf := hipwf
      cases port with
      | none =>
        have hdp : dropPre "tcp:".data (Tcp.display ⟨some (.v6 v6), none⟩).data
            = some ('[' :: (ipv6Chars v6 ++ [']'])) := by
          have h := dropPre_append "tcp:".data ('[' :: (ipv6Chars v6 ++ [']']))
          rw [show "tcp:".data ++ '[' :: (ipv6Chars v6 ++ [']'])
              = (Tcp.display ⟨some (.v6 v6), none⟩).data by simp [Tcp.display, Tcp.displayChars]] at h
          exact h
        rw [tcpFromStr_strip hdp (by simp)]
        rw [tcp_u16_fail_lbracket, sockAddrParse_none_v6brackets hv6]
        rw [ipv4Parse_none_head (headNotDigit_cons rustToDigit_lbracket _)]
        have hbr : (dropPre ['['] ('[' :: (ipv6Chars v6 ++ [']']))).bind (stripSuffixChar ']')
            = some (ipv6Chars v6) := by
          simp [dropPre, stripSuffixChar_concat]
        rw [hbr]
        simp [ipv6Parse_chars hv6, Tcp.fromIpv6]
      | some p =>
        have hp : p < 65536 := hwf.2 p rfl
        have hdp : dropPre "tcp:".data (Tcp.display ⟨some (.v6 v6), some p⟩).data
            = some ('[' :: (ipv6Chars v6 ++ ']' :: ':' :: decShow p)) := by
          have h := dropPre_append "tcp:".data ('[' :: (ipv6Chars v6 ++ ']' :: ':' :: decShow p))
          rw [show "tcp:".data ++ '[' :: (ipv6Chars v6 ++ ']' :: ':' :: decShow p)
              = (Tcp.display ⟨some (.v6 v6), some p⟩).data by
            simp [Tcp.display, Tcp.displayChars]] at h
          exact h
        rw [tcpFromStr_strip hdp (by simp)]
        simp only [decShow]
        rw [tcp_u16_fail_lbracket, sockAddrParse_v6_port hv6 hp]
        rfl

/-! ## Round trips of the derived families -/

theorem splitOnceList_append {sep : Char} :
    ∀ tag rest : List Char, sep ∉ tag →
      splitOnceList sep (tag ++ sep :: rest) = some (tag, rest) := by
  intro tag
  induction tag with
  | nil => intro rest _; simp [splitOnceList]
  | cons c tag ih =>
    intro rest hmem
    have hc : ¬(c = sep) := fun h => hmem (h ▸ List.mem_cons_self _ _)
    simp [splitOnceList, hc, ih rest (fun h => hmem (List.mem_cons_of_mem _ h))]

theorem colon_not_mem_digits {n : Nat} : ':' ∉ decShow n := by
  intro hmem
  obtain ⟨d, hd, heq⟩ := digitsBE_mem (by omega) n ':' hmem
  exact (digitChar_not_special (by omega)).2.2.2.1 heq.symm

theorem localAbstract_roundtrip (v : LocalAbstract) :
    LocalAbstract.fromStr v.display = .ok v := by
  obtain ⟨val⟩ := v
  have hdata : (LocalAbstract.display ⟨val⟩).data = "localabstract".data ++ ':' :: val.data := by
    show ("localabstract:" ++ val).data = _
    rw [String.data_append]
    rfl
  unfold LocalAbstract.fromStr
  rw [hdata, splitOnceList_append _ _ (by decide)]
  simp

theorem localReserved_roundtrip (v : LocalReserved) :
    LocalReserved.fromStr v.display = .ok v := by
  obtain ⟨val⟩ := v
  have hdata : (LocalReserved.display ⟨val⟩).data = "localreserved".data ++ ':' :: val.data := by
    show ("localreserved:" ++ val).data = _
    rw [String.data_append]
    rfl
  unfold LocalReserved.fromStr
  rw [hdata, splitOnceList_append _ _ (by decide)]
  simp

theorem localFileSystem_roundtrip (v : LocalFileSystem) :
    LocalFileSystem.fromStr v.display = .ok v := by
  obtain ⟨val⟩ := v
  have hdata : (LocalFileSystem.display ⟨val⟩).data
      = "localfilesystem".data ++ ':' :: val.data := by
    show ("localfilesystem:" ++ val).data = _
    rw [String.data_append]
    rfl
  unfold LocalFileSystem.fromStr
  rw [hdata, splitOnceList_append _ _ (by decide)]
  simp

theorem dev_roundtrip (v : Dev) : Dev.fromStr v.display = .ok v := by
  obtain ⟨val⟩ := v
  have hdata : (Dev.display ⟨val⟩).data = "dev".data ++ ':' :: val.data := by
    show ("dev:" ++ val).data = _
    rw [String.data_append]
    rfl
  unfold Dev.fromStr
  rw [hdata, splitOnceList_append _ _ (by decide)]
  simp

theorem devRaw_roundtrip (v : DevRaw) : DevRaw.fromStr v.display = .ok v := by
  obtain ⟨val⟩ := v
  have hdata : (DevRaw.display ⟨val⟩).data = "dev-raw:".data ++ val.data := by
    show ("dev-raw:" ++ val).data = _
    rw [String.data_append]
  unfold DevRaw.fromStr
  rw [hdata, dropPre_append]

theorem jdwp_roundtrip (v : Jdwp) (hv : v.pid < u32Bound) : Jdwp.fromStr v.display = .ok v := by
  obtain ⟨pid⟩ := v
  have hdata : (Jdwp.display ⟨pid⟩).data = "jdwp".data ++ ':' :: decShow pid := by
    show ("jdwp:" ++ (⟨decShow pid⟩ : String)).data = _
    rw [String.data_append]
    rfl
  unfold Jdwp.fromStr
  rw [hdata, splitOnceList_append _ _ (by decide)]
  simp [rustParseUnsignedList_decShow hv]

theorem acceptFd_roundtrip (v : AcceptFd) (hv : v.fd < u32Bound) :
    AcceptFd.fromStr v.display = .ok v := by
  obtain ⟨fd⟩ := v
  have hdata : (AcceptFd.display ⟨fd⟩).data = "acceptfd".data ++ ':' :: decShow fd := by
    show ("acceptfd:" ++ (⟨decShow fd⟩ : String)).data = _
    rw [String.data_append]
    rfl
  unfold AcceptFd.fromStr
  rw [hdata, splitOnceList_append _ _ (by decide)]
  simp [rustParseUnsignedList_decShow hv]

theorem vsock_roundtrip (v : Vsock) (hc : v.cid < u32Bound) (hp : v.port < u32Bound) :
    Vsock.fromStr v.display = .ok v := by
  obtain ⟨cid, port⟩ := v
  have hdata : (Vsock.display ⟨cid, port⟩).data
      = "vsock".data ++ ':' :: (decShow cid ++ ':' :: decShow port) := by
    show ("vsock:" ++ (⟨decShow cid⟩ : String) ++ ":" ++ (⟨decShow port⟩ : String)).data = _
    rw [String.data_append, String.data_append, String.data_append]
    simp
  unfold Vsock.fromStr
  rw [hdata, splitOnceList_append _ _ (by decide)]
  have hsplit : splitOnceList ':' (decShow cid ++ ':' :: decShow port)
      = some (decShow cid, decShow port) := splitOnceList_append _ _ colon_not_mem_digits
  simp [hsplit, rustParseUnsignedList_decShow hc, rustParseUnsignedList_decShow hp]

/-! # Claims -/

/-- C1: For every constructed non-sentinel value `v` of every family type
(`Tcp` with at least one field set, `LocalAbstract`, `LocalReserved`,
`LocalFileSystem`, `Dev`, `DevRaw`, `Jdwp`, `Vsock`, `AcceptFd`), parsing the
string produced by `format(v)` succeeds and returns a value equal to `v`
(`parse(format(v)) == v`). -/
theorem c1_roundtrip :
    (∀ t : Tcp, t.wf → t.ip ≠ none ∨ t.port ≠ none → Tcp.fromStr t.display = .ok t) ∧
    (∀ v : LocalAbstract, LocalAbstract.fromStr v.display = .ok v) ∧
    (∀ v : LocalReserved, LocalReserved.fromStr v.display = .ok v) ∧
    (∀ v : LocalFileSystem, LocalFileSystem.fromStr v.display = .ok v) ∧
    (∀ v : Dev, Dev.fromStr v.display = .ok v) ∧
    (∀ v : DevRaw, DevRaw.fromStr v.display = .ok v) ∧
    (∀ v : Jdwp, v.pid < u32Bound → Jdwp.fromStr v.display = .ok v) ∧
    (∀ v : Vsock, v.cid < u32Bound → v.port < u32Bound → Vsock.fromStr v.display = .ok v) ∧
    (∀ v : AcceptFd, v.fd < u32Bound → AcceptFd.fromStr v.display = .ok v) :=
  ⟨fun _ hwf hne => tcpFromStr_display hwf hne,
    localAbstract_roundtrip, localReserved_roundtrip, localFileSystem_roundtrip,
    dev_roundtrip, devRaw_roundtrip, jdwp_roundtrip, vsock_roundtrip, acceptFd_roundtrip⟩

/-- Witness for C1 at concrete values. -/
theorem c1_roundtrip_witness :
    Tcp.fromStr (Tcp.display ⟨some (.v6 ⟨[0, 0, 0, 0, 0, 0, 0, 1]⟩), some 5555⟩)
        = .ok ⟨some (.v6 ⟨[0, 0, 0, 0, 0, 0, 0, 1]⟩), some 5555⟩ ∧
    Jdwp.fromStr (Jdwp.display ⟨4294967295⟩) = .ok ⟨4294967295⟩ ∧
    Vsock.fromStr (Vsock.display ⟨1, 2⟩) = .ok ⟨1, 2⟩ ∧
    AcceptFd.fromStr (AcceptFd.display ⟨1⟩) = .ok ⟨1⟩ :=
  ⟨c1_roundtrip.1 ⟨some (.v6 ⟨[0, 0, 0, 0, 0, 0, 0, 1]⟩), some 5555⟩
      ⟨fun ip h => by cases h; exact ⟨rfl, by decide⟩, fun p h => by cases h; decide⟩
      (Or.inl (by simp)),
    c1_roundtrip.2.2.2.2.2.2.1 ⟨4294967295⟩ (by norm_num [u32Bound]),
    c1_roundtrip.2.2.2.2.2.2.2.1 ⟨1, 2⟩ (by norm_num [u32Bound]) (by norm_num [u32Bound]),
    c1_roundtrip.2.2.2.2.2.2.2.2 ⟨1⟩ (by norm_num [u32Bound])⟩

/-- C10 (implicit): parsing is not string-canonical — the numeric families
accept numerals with leading zeros, and the parsed value formats back without
them, so there are accepted inputs `s` with `format(parse(s)) ≠ s`, while
parsing after formatting is the identity on values (proved for all values in
the round-trip theorem for C1). -/
theorem c10_leading_zeros :
    (Jdwp.fromStr "jdwp:007" = .ok ⟨7⟩ ∧ Jdwp.display ⟨7⟩ = "jdwp:7" ∧
      ("jdwp:7" : String) ≠ "jdwp:007") ∧
    (AcceptFd.fromStr "acceptfd:01" = .ok ⟨1⟩ ∧ AcceptFd.display ⟨1⟩ = "acceptfd:1" ∧
      ("acceptfd:1" : String) ≠ "acceptfd:01") ∧
    (Vsock.fromStr "vsock:01:002" = .ok ⟨1, 2⟩ ∧ Vsock.display ⟨1, 2⟩ = "vsock:1:2" ∧
      ("vsock:1:2" : String) ≠ "vsock:01:002") ∧
    (Tcp.fromStr "tcp:080" = .ok (Tcp.fromPort 80) ∧ Tcp.display (Tcp.fromPort 80) = "tcp:80" ∧
      ("tcp:80" : String) ≠ "tcp:080") :=
  ⟨⟨rfl, rfl, by decide⟩, ⟨rfl, rfl, by decide⟩, ⟨rfl, rfl, by decide⟩, rfl, rfl, by decide⟩

/-- C7 counterexample: a numeral with a leading `+` parses successfully
(`u16`/`u32` `from_str` accept an optional leading `+`), contradicting the
claim that `"tcp:+80"` and `"jdwp:+1"` fail. -/
theorem c7_counterexample :
    Tcp.fromStr "tcp:+80" = .ok (Tcp.fromPort 80) ∧ Jdwp.fromStr "jdwp:+1" = .ok ⟨1⟩ :=
  ⟨rfl, rfl⟩

/-- C3 counterexample: a string in DevRaw's grammar parses successfully as the
union (the `AdbSocketFamilies` enum declares a `DevRaw` variant). -/
theorem c3_counterexample :
    AdbSocketFamilies.fromStr "dev-raw:/dev/tty" = .ok (.devRaw ⟨"/dev/tty"⟩) := rfl

/-! Characterisations of the splitting helpers, used below. -/

theorem splitOnceList_eq {sep : Char} :
    ∀ {cs a b : List Char}, splitOnceList sep cs = some (a, b) → cs = a ++ sep :: b ∧ sep ∉ a := by
  intro cs
  induction cs with
  | nil => intro a b h; cases h
  | cons c cs ih =>
    intro a b h
    simp only [splitOnceList] at h
    by_cases hc : c = sep
    · rw [if_pos hc] at h
      injection h with h'
      rw [Prod.mk.injEq] at h'
      obtain ⟨rfl, rfl⟩ := h'
      subst hc
      exact ⟨rfl, by simp⟩
    · rw [if_neg hc] at h
      cases hsp : splitOnceList sep cs with
      | none => rw [hsp] at h; cases h
      | some p =>
        obtain ⟨a', b'⟩ := p
        rw [hsp] at h
        injection h with h'
        rw [Prod.mk.injEq] at h'
        obtain ⟨rfl, rfl⟩ := h'
        obtain ⟨h1, h2⟩ := ih hsp
        constructor
        · rw [List.cons_append, ← h1]
        · intro hmem
          rcases List.mem_cons.mp hmem with h3 | h3
          · exact hc h3.symm
          · exact h2 h3

theorem dropPre_eq : ∀ xs cs ys : List Char, dropPre xs cs = some ys → cs = xs ++ ys
  | [], _, _, h => by
    cases h
    rfl
  | x :: xs, [], ys, h => by cases h
  | x :: xs, c :: cs', ys, h => by
    simp only [dropPre] at h
    by_cases hc : c = x
    · rw [if_pos hc] at h
      subst hc
      rw [List.cons_append, dropPre_eq xs cs' ys h]
    · rw [if_neg hc] at h
      cases h

theorem minus_head_unsigned_none {maxVal : Nat} (t : List Char) :
    rustParseUnsignedList maxVal ('-' :: t) = none := by
  simp +decide [rustParseUnsignedList]

theorem tcp_minus_fails (t : String) : exceptIsOk (Tcp.fromStr ("tcp:-" ++ t)) = false := by
  have hdp : dropPre "tcp:".data ("tcp:-" ++ t).data = some ('-' :: t.data) := by
    rw [String.data_append]
    exact dropPre_append "tcp:".data ('-' :: t.data)
  rw [tcpFromStr_strip hdp (by simp)]
  rw [minus_head_unsigned_none]
  have hsock : sockAddrParse ('-' :: t.data) = none := by
    have h4 : readIpv4 ('-' :: t.data) = none :=
      readIpv4_none_head (headNotDigit_cons rustToDigit_minus _)
    have h6 : readSocketAddrV6 ('-' :: t.data) = none := readSocketAddrV6_none_head (by decide)
    simp [sockAddrParse, readSocketAddr, readSocketAddrV4, h4, h6]
  rw [hsock]
  rw [ipv4Parse_none_head (headNotDigit_cons rustToDigit_minus _)]
  rw [show (dropPre ['['] ('-' :: t.data)).bind (stripSuffixChar ']') = none by
    simp +decide [dropPre]]
  rfl

theorem jdwp_minus_fails (t : String) : exceptIsOk (Jdwp.fromStr ("jdwp:-" ++ t)) = false := by
  have hsp : splitOnceList ':' ("jdwp:-" ++ t).data = some ("jdwp".data, '-' :: t.data) := by
    rw [String.data_append]
    exact splitOnceList_append "jdwp".data ('-' :: t.data) (by decide)
  unfold Jdwp.fromStr
  rw [hsp]
  simp [minus_head_unsigned_none, exceptIsOk]

theorem acceptFd_minus_fails (t : String) :
    exceptIsOk (AcceptFd.fromStr ("acceptfd:-" ++ t)) = false := by
  have hsp : splitOnceList ':' ("acceptfd:-" ++ t).data
      = some ("acceptfd".data, '-' :: t.data) := by
    rw [String.data_append]
    exact splitOnceList_append "acceptfd".data ('-' :: t.data) (by decide)
  unfold AcceptFd.fromStr
  rw [hsp]
  simp [minus_head_unsigned_none, exceptIsOk]

theorem vsockFromStr_strip {s : String} {rest : List Char}
    (h : splitOnceList ':' s.data = some ("vsock".data, rest)) :
    Vsock.fromStr s =
      match splitOnceList ':' rest with
      | some (cidPart, rest2) =>
        match rustParseUnsignedList u32Bound cidPart with
        | some cid =>
          match rustParseUnsignedList u32Bound rest2 with
          | some port => .ok ⟨cid, port⟩
          | none => .error ⟨⟨rest2⟩, "&str", "u32", true⟩
        | none => .error ⟨⟨rest2⟩, "&str", "u32", true⟩
      | none => .error ⟨⟨rest⟩, "&str", "u32", false⟩ := by
  unfold Vsock.fromStr
  rw [h]
  rfl

theorem vsock_minus_fails (t : String) : exceptIsOk (Vsock.fromStr ("vsock:-" ++ t)) = false := by
  have hsp : splitOnceList ':' ("vsock:-" ++ t).data = some ("vsock".data, '-' :: t.data) := by
    rw [String.data_append]
    exact splitOnceList_append "vsock".data ('-' :: t.data) (by decide)
  rw [vsockFromStr_strip hsp]
  cases h2 : splitOnceList ':' ('-' :: t.data) with
  | none => rfl
  | some p =>
    obtain ⟨a, b⟩ := p
    obtain ⟨heq, _⟩ := splitOnceList_eq h2
    cases a with
    | nil =>
      rw [List.nil_append] at heq
      injection heq with h1 _
      exact absurd h1 (by decide)
    | cons a0 a' =>
      rw [List.cons_append] at heq
      injection heq with h1 _
      rw [← h1]
      simp [minus_head_unsigned_none, exceptIsOk]

theorem vsock_port_minus_fails (t : String) :
    exceptIsOk (Vsock.fromStr ("vsock:1:-" ++ t)) = false := by
  have hsp : splitOnceList ':' ("vsock:1:-" ++ t).data
      = some ("vsock".data, '1' :: ':' :: '-' :: t.data) := by
    rw [String.data_append]
    exact splitOnceList_append "vsock".data ('1' :: ':' :: '-' :: t.data) (by decide)
  rw [vsockFromStr_strip hsp]
  rw [show splitOnceList ':' ('1' :: ':' :: '-' :: t.data) = some (['1'], '-' :: t.data) by
    simp +decide [splitOnceList]]
  simp [minus_head_unsigned_none, exceptIsOk,
    show rustParseUnsignedList u32Bound ['1'] = some 1 from rfl]

/-- C7 (amended): the numeric boundaries hold (`65535`/`65536` for the port,
`4294967295`/`4294967296` for the 32-bit fields) and negative numerals always
fail, but a numeral with a leading `+` is accepted, because Rust's unsigned
`from_str` accepts an optional leading `+` (e.g. `"tcp:+80"` parses to port 80
and `"jdwp:+1"` parses to pid 1). -/
theorem c7_amended :
    (Tcp.fromStr "tcp:65535" = .ok (Tcp.fromPort 65535)) ∧
    (exceptIsOk (Tcp.fromStr "tcp:65536") = false) ∧
    (Jdwp.fromStr "jdwp:4294967295" = .ok ⟨4294967295⟩) ∧
    (exceptIsOk (Jdwp.fromStr "jdwp:4294967296") = false) ∧
    (AcceptFd.fromStr "acceptfd:4294967295" = .ok ⟨4294967295⟩) ∧
    (exceptIsOk (AcceptFd.fromStr "acceptfd:4294967296") = false) ∧
    (Vsock.fromStr "vsock:4294967295:4294967295" = .ok ⟨4294967295, 4294967295⟩) ∧
    (exceptIsOk (Vsock.fromStr "vsock:4294967296:1") = false) ∧
    (exceptIsOk (Vsock.fromStr "vsock:1:4294967296") = false) ∧
    (∀ t : String, exceptIsOk (Tcp.fromStr ("tcp:-" ++ t)) = false) ∧
    (∀ t : String, exceptIsOk (Jdwp.fromStr ("jdwp:-" ++ t)) = false) ∧
    (∀ t : String, exceptIsOk (AcceptFd.fromStr ("acceptfd:-" ++ t)) = false) ∧
    (∀ t : String, exceptIsOk (Vsock.fromStr ("vsock:-" ++ t)) = false) ∧
    (∀ t : String, exceptIsOk (Vsock.fromStr ("vsock:1:-" ++ t)) = false) ∧
    (Tcp.fromStr "tcp:+80" = .ok (Tcp.fromPort 80)) ∧
    (Jdwp.fromStr "jdwp:+1" = .ok ⟨1⟩) :=
  ⟨rfl, rfl, rfl, rfl, rfl, rfl, rfl, rfl, rfl,
    tcp_minus_fails, jdwp_minus_fails, acceptFd_minus_fails, vsock_minus_fails,
    vsock_port_minus_fails, rfl, rfl⟩

/-- C2: `Tcp` parsing applies exactly the claimed decision order to the text
after the `tcp:` tag — empty fails; else a whole-string `u16` gives a port-only
value; else a full socket address gives both fields; else a bare dotted IPv4
gives a host-only value; else one pair of square brackets around a bare IPv6
gives a host-only value; else failure.  In particular `"tcp:::1"` fails while
`"tcp:[::1]"` succeeds and formats back to `"tcp:[::1]"`. -/
theorem c2_tcp_decision_order :
    (∀ s : String, exceptToOption (Tcp.fromStr s) = tcpParseClaimOrder s) ∧
    exceptIsOk (Tcp.fromStr "tcp:::1") = false ∧
    Tcp.fromStr "tcp:[::1]" = .ok (Tcp.fromIpv6 ⟨[0, 0, 0, 0, 0, 0, 0, 1]⟩) ∧
    Tcp.display (Tcp.fromIpv6 ⟨[0, 0, 0, 0, 0, 0, 0, 1]⟩) = "tcp:[::1]" := by
  refine ⟨?_, rfl, rfl, rfl⟩
  intro s
  cases h : dropPre "tcp:".data s.data with
  | none => simp [Tcp.fromStr, tcpParseClaimOrder, h, exceptToOption]
  | some value =>
    cases value with
    | nil => simp [Tcp.fromStr, tcpParseClaimOrder, h, exceptToOption]
    | cons c t =>
      rw [tcpFromStr_strip h (by simp)]
      simp only [tcpParseClaimOrder, h]
      rw [if_neg (by simp : ¬(c :: t = []))]
      cases r1 : rustParseUnsignedList 65536 (c :: t) with
      | some port => simp [exceptToOption, Tcp.fromPort]
      | none =>
        cases r2 : sockAddrParse (c :: t) with
        | some addr =>
          cases addr <;> simp [exceptToOption, Tcp.ofSocketAddr]
        | none =>
          cases r3 : ipv4Parse (c :: t) with
          | some v4 => simp [exceptToOption, Tcp.fromIpv4]
          | none =>
            cases r4 : (dropPre ['['] (c :: t)).bind (stripSuffixChar ']') with
            | none => simp [exceptToOption]
            | some inner =>
              cases r5 : ipv6Parse inner with
              | some v6 => simp [exceptToOption, Tcp.fromIpv6, r5]
              | none => simp [exceptToOption, r5]

theorem stripSuffixChar_eq {c : Char} {cs xs : List Char}
    (h : stripSuffixChar c cs = some xs) : cs = xs ++ [c] := by
  unfold stripSuffixChar at h
  split_ifs at h with hlast
  injection h with h'
  subst h'
  cases hcs : cs with
  | nil => rw [hcs] at hlast; cases hlast
  | cons a t =>
    rw [← hcs]
    have hne : cs ≠ [] := by rw [hcs]; simp
    have := List.dropLast_append_getLast hne
    rw [List.getLast?_eq_getLast cs hne] at hlast
    injection hlast with hl
    rw [hl] at this
    exact this.symm

/-- C3 (amended): `DevRaw` IS a member of the address union — the
`AdbSocketFamilies` enum declares a `DevRaw` variant among its nine members,
and every string with the `dev-raw:` tag parses successfully as the union,
yielding the `DevRaw` variant wrapping the text after the tag. -/
theorem c3_amended (p : String) :
    AdbSocketFamilies.fromStr ("dev-raw:" ++ p) = .ok (.devRaw ⟨p⟩) := by
  have hdata : ("dev-raw:" ++ p).data = "dev-raw".data ++ ':' :: p.data := by
    rw [String.data_append]
    rfl
  have hsplit : splitOnceList ':' ("dev-raw:" ++ p).data = some ("dev-raw".data, p.data) := by
    rw [hdata]
    exact splitOnceList_append _ _ (by decide)
  have hTcp : Tcp.fromStr ("dev-raw:" ++ p)
      = .error ⟨"dev-raw:" ++ p, "&str", "Tcp", false⟩ := by
    unfold Tcp.fromStr
    rw [hdata]
    rfl
  have hLA : LocalAbstract.fromStr ("dev-raw:" ++ p)
      = .error ⟨"dev-raw:" ++ p, "&str", "LocalAbstract", false⟩ := by
    unfold LocalAbstract.fromStr
    rw [hsplit]
    rfl
  have hLR : LocalReserved.fromStr ("dev-raw:" ++ p)
      = .error ⟨"dev-raw:" ++ p, "&str", "LocalReserved", false⟩ := by
    unfold LocalReserved.fromStr
    rw [hsplit]
    rfl
  have hLFS : LocalFileSystem.fromStr ("dev-raw:" ++ p)
      = .error ⟨"dev-raw:" ++ p, "&str", "LocalFileSystem", false⟩ := by
    unfold LocalFileSystem.fromStr
    rw [hsplit]
    rfl
  have hDev : Dev.fromStr ("dev-raw:" ++ p)
      = .error ⟨"dev-raw:" ++ p, "&str", "Dev", false⟩ := by
    unfold Dev.fromStr
    rw [hsplit]
    rfl
  have hDR : DevRaw.fromStr ("dev-raw:" ++ p) = .ok ⟨p⟩ := by
    unfold DevRaw.fromStr
    rw [String.data_append, dropPre_append]
  unfold AdbSocketFamilies.fromStr
  rw [hTcp, hLA, hLR, hLFS, hDev, hDR]

/-- C6: the empty `Tcp` sentinel `{ip: none, port: none}` formats to the empty
string; `Tcp` parsing fails on `""` and on `"tcp:"`; and no input whatsoever
parses to the sentinel — every successful `Tcp` parse has the ip or the port
set. -/
theorem c6_sentinel :
    Tcp.display ⟨none, none⟩ = "" ∧
    exceptIsOk (Tcp.fromStr "") = false ∧
    exceptIsOk (Tcp.fromStr "tcp:") = false ∧
    ∀ (s : String) (t : Tcp), Tcp.fromStr s = .ok t → t.ip ≠ none ∨ t.port ≠ none := by
  refine ⟨rfl, rfl, rfl, ?_⟩
  intro s t h
  cases hd : dropPre "tcp:".data s.data with
  | none => simp [Tcp.fromStr, hd] at h
  | some value =>
    cases value with
    | nil => simp [Tcp.fromStr, hd] at h
    | cons c tail =>
      rw [tcpFromStr_strip hd (by simp)] at h
      cases r1 : rustParseUnsignedList 65536 (c :: tail) with
      | some port =>
        rw [r1] at h
        injection h with h'
        subst h'
        right
        simp [Tcp.fromPort]
      | none =>
        rw [r1] at h
        cases r2 : sockAddrParse (c :: tail) with
        | some addr =>
          rw [r2] at h
          injection h with h'
          subst h'
          cases addr <;> simp [Tcp.ofSocketAddr]
        | none =>
          rw [r2] at h
          cases r3 : ipv4Parse (c :: tail) with
          | some v4 =>
            rw [r3] at h
            injection h with h'
            subst h'
            left
            simp [Tcp.fromIpv4]
          | none =>
            rw [r3] at h
            cases r4 : (dropPre ['['] (c :: tail)).bind (stripSuffixChar ']') with
            | none =>
              rw [r4] at h
              exact Except.noConfusion h
            | some inner =>
              rw [r4] at h
              have h2 : (match ipv6Parse inner with
                  | some v6 => (Except.ok (Tcp.fromIpv6 v6) : Except AdbError Tcp)
                  | none => Except.error ⟨⟨inner⟩, "&str", "Ipv6Addr", true⟩) = .ok t := h
              cases r5 : ipv6Parse inner with
              | some v6 =>
                rw [r5] at h2
                injection h2 with h'
                subst h'
                left
                simp [Tcp.fromIpv6]
              | none =>
                rw [r5] at h2
                exact Except.noConfusion h2

/-- Witness for C6: `"tcp:5"` parses to a `Tcp` value, and that value has the
ip or the port set. -/
theorem c6_sentinel_witness :
    (⟨none, some 5⟩ : Tcp).ip ≠ none ∨ (⟨none, some 5⟩ : Tcp).port ≠ none :=
  c6_sentinel.2.2.2 "tcp:5" ⟨none, some 5⟩ rfl

theorem exceptIsOk_false {ε α : Type} {x : Except ε α} (h : exceptIsOk x = false) :
    ∃ e, x = .error e := by
  cases x with
  | ok a => simp [exceptIsOk] at h
  | error e => exact ⟨e, rfl⟩

/-- C5: the union's parse tries each member family in declaration order and
returns the first success; when every member fails it returns a single error
whose target type is the union's own name with no cause — the member errors
are discarded. -/
theorem c5_union_dispatch (s : String) :
    (∀ v, Tcp.fromStr s = .ok v → AdbSocketFamilies.fromStr s = .ok (.tcp v)) ∧
    (exceptIsOk (Tcp.fromStr s) = false →
      ∀ v, LocalAbstract.fromStr s = .ok v →
        AdbSocketFamilies.fromStr s = .ok (.localAbstract v)) ∧
    (exceptIsOk (Tcp.fromStr s) = false →
      exceptIsOk (LocalAbstract.fromStr s) = false →
      ∀ v, LocalReserved.fromStr s = .ok v →
        AdbSocketFamilies.fromStr s = .ok (.localReserved v)) ∧
    (exceptIsOk (Tcp.fromStr s) = false →
      exceptIsOk (LocalAbstract.fromStr s) = false →
      exceptIsOk (LocalReserved.fromStr s) = false →
      ∀ v, LocalFileSystem.fromStr s = .ok v →
        AdbSocketFamilies.fromStr s = .ok (.localFileSystem v)) ∧
    (exceptIsOk (Tcp.fromStr s) = false →
      exceptIsOk (LocalAbstract.fromStr s) = false →
      exceptIsOk (LocalReserved.fromStr s) = false →
      exceptIsOk (LocalFileSystem.fromStr s) = false →
      ∀ v, Dev.fromStr s = .ok v → AdbSocketFamilies.fromStr s = .ok (.dev v)) ∧
    (exceptIsOk (Tcp.fromStr s) = false →
      exceptIsOk (LocalAbstract.fromStr s) = false →
      exceptIsOk (LocalReserved.fromStr s) = false →
      exceptIsOk (LocalFileSystem.fromStr s) = false →
      exceptIsOk (Dev.fromStr s) = false →
      ∀ v, DevRaw.fromStr s = .ok v → AdbSocketFamilies.fromStr s = .ok (.devRaw v)) ∧
    (exceptIsOk (Tcp.fromStr s) = false →
      exceptIsOk (LocalAbstract.fromStr s) = false →
      exceptIsOk (LocalReserved.fromStr s) = false →
      exceptIsOk (LocalFileSystem.fromStr s) = false →
      exceptIsOk (Dev.fromStr s) = false →
      exceptIsOk (DevRaw.fromStr s) = false →
      ∀ v, Jdwp.fromStr s = .ok v → AdbSocketFamilies.fromStr s = .ok (.jdwp v)) ∧
    (exceptIsOk (Tcp.fromStr s) = false →
      exceptIsOk (LocalAbstract.fromStr s) = false →
      exceptIsOk (LocalReserved.fromStr s) = false →
      exceptIsOk (LocalFileSystem.fromStr s) = false →
      exceptIsOk (Dev.fromStr s) = false →
      exceptIsOk (DevRaw.fromStr s) = false →
      exceptIsOk (Jdwp.fromStr s) = false →
      ∀ v, Vsock.fromStr s = .ok v → AdbSocketFamilies.fromStr s = .ok (.vsock v)) ∧
    (exceptIsOk (Tcp.fromStr s) = false →
      exceptIsOk (LocalAbstract.fromStr s) = false →
      exceptIsOk (LocalReserved.fromStr s) = false →
      exceptIsOk (LocalFileSystem.fromStr s) = false →
      exceptIsOk (Dev.fromStr s) = false →
      exceptIsOk (DevRaw.fromStr s) = false →
      exceptIsOk (Jdwp.fromStr s) = false →
      exceptIsOk (Vsock.fromStr s) = false →
      ∀ v, AcceptFd.fromStr s = .ok v →
        AdbSocketFamilies.fromStr s = .ok (.acceptFd v)) ∧
    (exceptIsOk (Tcp.fromStr s) = false →
      exceptIsOk (LocalAbstract.fromStr s) = false →
      exceptIsOk (LocalReserved.fromStr s) = false →
      exceptIsOk (LocalFileSystem.fromStr s) = false →
      exceptIsOk (Dev.fromStr s) = false →
      exceptIsOk (DevRaw.fromStr s) = false →
      exceptIsOk (Jdwp.fromStr s) = false →
      exceptIsOk (Vsock.fromStr s) = false →
      exceptIsOk (AcceptFd.fromStr s) = false →
      AdbSocketFamilies.fromStr s = .error ⟨s, "&str", "AdbSocketFamilies", false⟩) := by
  refine ⟨?_, ?_, ?_, ?_, ?_, ?_, ?_, ?_, ?_, ?_⟩
  · intro v hv
    unfold AdbSocketFamilies.fromStr
    rw [hv]
  · intro f1 v hv
    obtain ⟨e1, h1⟩ := exceptIsOk_false f1
    unfold AdbSocketFamilies.fromStr
    rw [h1, hv]
  · intro f1 f2 v hv
    obtain ⟨e1, h1⟩ := exceptIsOk_false f1
    obtain ⟨e2, h2⟩ := exceptIsOk_false f2
    unfold AdbSocketFamilies.fromStr
    rw [h1, h2, hv]
  · intro f1 f2 f3 v hv
    obtain ⟨e1, h1⟩ := exceptIsOk_false f1
    obtain ⟨e2, h2⟩ := exceptIsOk_false f2
    obtain ⟨e3, h3⟩ := exceptIsOk_false f3
    unfold AdbSocketFamilies.fromStr
    rw [h1, h2, h3, hv]
  · intro f1 f2 f3 f4 v hv
    obtain ⟨e1, h1⟩ := exceptIsOk_false f1
    obtain ⟨e2, h2⟩ := exceptIsOk_false f2
    obtain ⟨e3, h3⟩ := exceptIsOk_false f3
    obtain ⟨e4, h4⟩ := exceptIsOk_false f4
    unfold AdbSocketFamilies.fromStr
    rw [h1, h2, h3, h4, hv]
  · intro f1 f2 f3 f4 f5 v hv
    obtain ⟨e1, h1⟩ := exceptIsOk_false f1
    obtain ⟨e2, h2⟩ := exceptIsOk_false f2
    obtain ⟨e3, h3⟩ := exceptIsOk_false f3
    obtain ⟨e4, h4⟩ := exceptIsOk_false f4
    obtain ⟨e5, h5⟩ := exceptIsOk_false f5
    unfold AdbSocketFamilies.fromStr
    rw [h1, h2, h3, h4, h5, hv]
  · intro f1 f2 f3 f4 f5 f6 v hv
    obtain ⟨e1, h1⟩ := exceptIsOk_false f1
    obtain ⟨e2, h2⟩ := exceptIsOk_false f2
    obtain ⟨e3, h3⟩ := exceptIsOk_false f3
    obtain ⟨e4, h4⟩ := exceptIsOk_false f4
    obtain ⟨e5, h5⟩ := exceptIsOk_false f5
    obtain ⟨e6, h6⟩ := exceptIsOk_false f6
    unfold AdbSocketFamilies.fromStr
    rw [h1, h2, h3, h4, h5, h6, hv]
  · intro f1 f2 f3 f4 f5 f6 f7 v hv
    obtain ⟨e1, h1⟩ := exceptIsOk_false f1
    obtain ⟨e2, h2⟩ := exceptIsOk_false f2
    obtain ⟨e3, h3⟩ := exceptIsOk_false f3
    obtain ⟨e4, h4⟩ := exceptIsOk_false f4
    obtain ⟨e5, h5⟩ := exceptIsOk_false f5
    obtain ⟨e6, h6⟩ := exceptIsOk_false f6
    obtain ⟨e7, h7⟩ := exceptIsOk_false f7
    unfold AdbSocketFamilies.fromStr
    rw [h1, h2, h3, h4, h5, h6, h7, hv]
  · intro f1 f2 f3 f4 f5 f6 f7 f8 v hv
    obtain ⟨e1, h1⟩ := exceptIsOk_false f1
    obtain ⟨e2, h2⟩ := exceptIsOk_false f2
    obtain ⟨e3, h3⟩ := exceptIsOk_false f3
    obtain ⟨e4, h4⟩ := exceptIsOk_false f4
    obtain ⟨e5, h5⟩ := exceptIsOk_false f5
    obtain ⟨e6, h6⟩ := exceptIsOk_false f6
    obtain ⟨e7, h7⟩ := exceptIsOk_false f7
    obtain ⟨e8, h8⟩ := exceptIsOk_false f8
    unfold AdbSocketFamilies.fromStr
    rw [h1, h2, h3, h4, h5, h6, h7, h8, hv]
  · intro f1 f2 f3 f4 f5 f6 f7 f8 f9
    obtain ⟨e1, h1⟩ := exceptIsOk_false f1
    obtain ⟨e2, h2⟩ := exceptIsOk_false f2
    obtain ⟨e3, h3⟩ := exceptIsOk_false f3
    obtain ⟨e4, h4⟩ := exceptIsOk_false f4
    obtain ⟨e5, h5⟩ := exceptIsOk_false f5
    obtain ⟨e6, h6⟩ := exceptIsOk_false f6
    obtain ⟨e7, h7⟩ := exceptIsOk_false f7
    obtain ⟨e8, h8⟩ := exceptIsOk_false f8
    obtain ⟨e9, h9⟩ := exceptIsOk_false f9
    unfold AdbSocketFamilies.fromStr
    rw [h1, h2, h3, h4, h5, h6, h7, h8, h9]

/-- Witness for C5: `"localabstract:a"` fails as `Tcp` and succeeds as
`LocalAbstract`, so the union yields the `LocalAbstract` variant; `"#"` fails
as every member, so the union yields the discarding fallback error. -/
theorem c5_union_dispatch_witness :
    AdbSocketFamilies.fromStr "localabstract:a" = .ok (.localAbstract ⟨"a"⟩) ∧
    AdbSocketFamilies.fromStr "#" = .error ⟨"#", "&str", "AdbSocketFamilies", false⟩ :=
  ⟨(c5_union_dispatch "localabstract:a").2.1 rfl ⟨"a"⟩ rfl,
   (c5_union_dispatch "#").2.2.2.2.2.2.2.2.2 rfl rfl rfl rfl rfl rfl rfl rfl rfl⟩

theorem except_not_ok {ε α : Type} {x : Except ε α} (h : ∀ w, x ≠ .ok w) :
    ∃ e, x = .error e := by
  cases x with
  | ok a => exact absurd rfl (h a)
  | error e => exact ⟨e, rfl⟩

theorem firstTag_unique {s : String} {a b : List Char} (ha : firstTag s = some a)
    (hb : firstTag s = some b) : a = b := by
  rw [ha] at hb
  exact Option.some.inj hb

theorem laFromStr_strip {s : String} {tag rest : List Char}
    (h : splitOnceList ':' s.data = some (tag, rest)) :
    LocalAbstract.fromStr s = if tag = "localabstract".data then .ok ⟨⟨rest⟩⟩
      else .error ⟨s, "&str", "LocalAbstract", false⟩ := by
  unfold LocalAbstract.fromStr
  rw [h]

theorem lrFromStr_strip {s : String} {tag rest : List Char}
    (h : splitOnceList ':' s.data = some (tag, rest)) :
    LocalReserved.fromStr s = if tag = "localreserved".data then .ok ⟨⟨rest⟩⟩
      else .error ⟨s, "&str", "LocalReserved", false⟩ := by
  unfold LocalReserved.fromStr
  rw [h]

theorem lfsFromStr_strip {s : String} {tag rest : List Char}
    (h : splitOnceList ':' s.data = some (tag, rest)) :
    LocalFileSystem.fromStr s = if tag = "localfilesystem".data then .ok ⟨⟨rest⟩⟩
      else .error ⟨s, "&str", "LocalFileSystem", false⟩ := by
  unfold LocalFileSystem.fromStr
  rw [h]

theorem devFromStr_strip {s : String} {tag rest : List Char}
    (h : splitOnceList ':' s.data = some (tag, rest)) :
    Dev.fromStr s = if tag = "dev".data then .ok ⟨⟨rest⟩⟩
      else .error ⟨s, "&str", "Dev", false⟩ := by
  unfold Dev.fromStr
  rw [h]

theorem jdwpFromStr_strip {s : String} {tag rest : List Char}
    (h : splitOnceList ':' s.data = some (tag, rest)) :
    Jdwp.fromStr s = if tag = "jdwp".data then
        (match rustParseUnsignedList u32Bound rest with
         | some pid => .ok ⟨pid⟩
         | none => .error ⟨⟨rest⟩, "&str", "u32", true⟩)
      else .error ⟨s, "&str", "Jdwp", false⟩ := by
  unfold Jdwp.fromStr
  rw [h]

theorem acceptFdFromStr_strip {s : String} {tag rest : List Char}
    (h : splitOnceList ':' s.data = some (tag, rest)) :
    AcceptFd.fromStr s = if tag = "acceptfd".data then
        (match rustParseUnsignedList u32Bound rest with
         | some fd => .ok ⟨fd⟩
         | none => .error ⟨⟨rest⟩, "&str", "u32", true⟩)
      else .error ⟨s, "&str", "AcceptFd", false⟩ := by
  unfold AcceptFd.fromStr
  rw [h]

theorem vsockFromStr_tagStrip {s : String} {tag rest : List Char}
    (h : splitOnceList ':' s.data = some (tag, rest)) :
    Vsock.fromStr s = if tag = "vsock".data then
        (match splitOnceList ':' rest with
         | some (cidPart, rest2) =>
           match rustParseUnsignedList u32Bound cidPart with
           | some cid =>
             match rustParseUnsignedList u32Bound rest2 with
             | some port => .ok ⟨cid, port⟩
             | none => .error ⟨⟨rest2⟩, "&str", "u32", true⟩
           | none => .error ⟨⟨rest2⟩, "&str", "u32", true⟩
         | none => .error ⟨⟨rest⟩, "&str", "u32", false⟩)
      else .error ⟨s, "&str", "Vsock", false⟩ := by
  unfold Vsock.fromStr
  rw [h]

theorem tcp_ok_firstTag {s : String} {v : Tcp} (h : Tcp.fromStr s = .ok v) :
    firstTag s = some "tcp".data := by
  unfold Tcp.fromStr at h
  cases hd : dropPre "tcp:".data s.data with
  | none =>
    rw [hd] at h
    exact Except.noConfusion h
  | some value =>
    have hs : s.data = "tcp".data ++ ':' :: value := by rw [dropPre_eq _ _ _ hd]; rfl
    unfold firstTag
    rw [hs, splitOnceList_append _ _ (by decide)]
    rfl

theorem la_ok_firstTag {s : String} {v : LocalAbstract}
    (h : LocalAbstract.fromStr s = .ok v) : firstTag s = some "localabstract".data := by
  cases hsp : splitOnceList ':' s.data with
  | none =>
    unfold LocalAbstract.fromStr at h
    rw [hsp] at h
    exact Except.noConfusion h
  | some pr =>
    obtain ⟨tag, rest⟩ := pr
    rw [laFromStr_strip hsp] at h
    split_ifs at h with ht
    simp [firstTag, hsp, ht]

theorem lr_ok_firstTag {s : String} {v : LocalReserved}
    (h : LocalReserved.fromStr s = .ok v) : firstTag s = some "localreserved".data := by
  cases hsp : splitOnceList ':' s.data with
  | none =>
    unfold LocalReserved.fromStr at h
    rw [hsp] at h
    exact Except.noConfusion h
  | some pr =>
    obtain ⟨tag, rest⟩ := pr
    rw [lrFromStr_strip hsp] at h
    split_ifs at h with ht
    simp [firstTag, hsp, ht]

theorem lfs_ok_firstTag {s : String} {v : LocalFileSystem}
    (h : LocalFileSystem.fromStr s = .ok v) : firstTag s = some "localfilesystem".data := by
  cases hsp : splitOnceList ':' s.data with
  | none =>
    unfold LocalFileSystem.fromStr at h
    rw [hsp] at h
    exact Except.noConfusion h
  | some pr =>
    obtain ⟨tag, rest⟩ := pr
    rw [lfsFromStr_strip hsp] at h
    split_ifs at h with ht
    simp [firstTag, hsp, ht]

theorem dev_ok_firstTag {s : String} {v : Dev}
    (h : Dev.fromStr s = .ok v) : firstTag s = some "dev".data := by
  cases hsp : splitOnceList ':' s.data with
  | none =>
    unfold Dev.fromStr at h
    rw [hsp] at h
    exact Except.noConfusion h
  | some pr =>
    obtain ⟨tag, rest⟩ := pr
    rw [devFromStr_strip hsp] at h
    split_ifs at h with ht
    simp [firstTag, hsp, ht]

theorem devRaw_ok_firstTag {s : String} {v : DevRaw}
    (h : DevRaw.fromStr s = .ok v) : firstTag s = some "dev-raw".data := by
  unfold DevRaw.fromStr at h
  cases hd : dropPre "dev-raw:".data s.data with
  | none =>
    rw [hd] at h
    exact Except.noConfusion h
  | some rest =>
    have hs : s.data = "dev-raw".data ++ ':' :: rest := by rw [dropPre_eq _ _ _ hd]; rfl
    unfold firstTag
    rw [hs, splitOnceList_append _ _ (by decide)]
    rfl

theorem jdwp_ok_firstTag {s : String} {v : Jdwp}
    (h : Jdwp.fromStr s = .ok v) : firstTag s = some "jdwp".data := by
  cases hsp : splitOnceList ':' s.data with
  | none =>
    unfold Jdwp.fromStr at h
    rw [hsp] at h
    exact Except.noConfusion h
  | some pr =>
    obtain ⟨tag, rest⟩ := pr
    rw [jdwpFromStr_strip hsp] at h
    split_ifs at h with ht
    simp [firstTag, hsp, ht]

theorem vsock_ok_firstTag {s : String} {v : Vsock}
    (h : Vsock.fromStr s = .ok v) : firstTag s = some "vsock".data := by
  cases hsp : splitOnceList ':' s.data with
  | none =>
    unfold Vsock.fromStr at h
    rw [hsp] at h
    exact Except.noConfusion h
  | some pr =>
    obtain ⟨tag, rest⟩ := pr
    rw [vsockFromStr_tagStrip hsp] at h
    split_ifs at h with ht
    simp [firstTag, hsp, ht]

theorem acceptFd_ok_firstTag {s : String} {v : AcceptFd}
    (h : AcceptFd.fromStr s = .ok v) : firstTag s = some "acceptfd".data := by
  cases hsp : splitOnceList ':' s.data with
  | none =>
    unfold AcceptFd.fromStr at h
    rw [hsp] at h
    exact Except.noConfusion h
  | some pr =>
    obtain ⟨tag, rest⟩ := pr
    rw [acceptFdFromStr_strip hsp] at h
    split_ifs at h with ht
    simp [firstTag, hsp, ht]

/-- C9: tag exclusivity — whenever an input matches some family's grammar (its
parse as that family succeeds), parsing it as the union yields that same
family's value, never a different family's; the distinct tags (including the
pair `dev` / `dev-raw`) can never capture each other's inputs. -/
theorem c9_tag_exclusivity (s : String) :
    (∀ v, Tcp.fromStr s = .ok v → AdbSocketFamilies.fromStr s = .ok (.tcp v)) ∧
    (∀ v, LocalAbstract.fromStr s = .ok v →
      AdbSocketFamilies.fromStr s = .ok (.localAbstract v)) ∧
    (∀ v, LocalReserved.fromStr s = .ok v →
      AdbSocketFamilies.fromStr s = .ok (.localReserved v)) ∧
    (∀ v, LocalFileSystem.fromStr s = .ok v →
      AdbSocketFamilies.fromStr s = .ok (.localFileSystem v)) ∧
    (∀ v, Dev.fromStr s = .ok v → AdbSocketFamilies.fromStr s = .ok (.dev v)) ∧
    (∀ v, DevRaw.fromStr s = .ok v → AdbSocketFamilies.fromStr s = .ok (.devRaw v)) ∧
    (∀ v, Jdwp.fromStr s = .ok v → AdbSocketFamilies.fromStr s = .ok (.jdwp v)) ∧
    (∀ v, Vsock.fromStr s = .ok v → AdbSocketFamilies.fromStr s = .ok (.vsock v)) ∧
    (∀ v, AcceptFd.fromStr s = .ok v → AdbSocketFamilies.fromStr s = .ok (.acceptFd v)) := by
  refine ⟨?_, ?_, ?_, ?_, ?_, ?_, ?_, ?_, ?_⟩
  · intro v hv
    unfold AdbSocketFamilies.fromStr
    rw [hv]
  · intro v hv
    have hft := la_ok_firstTag hv
    obtain ⟨e1, h1⟩ := except_not_ok fun w hw =>
      absurd (firstTag_unique (tcp_ok_firstTag hw) hft) (by decide)
    unfold AdbSocketFamilies.fromStr
    rw [h1, hv]
  · intro v hv
    have hft := lr_ok_firstTag hv
    obtain ⟨e1, h1⟩ := except_not_ok fun w hw =>
      absurd (firstTag_unique (tcp_ok_firstTag hw) hft) (by decide)
    obtain ⟨e2, h2⟩ := except_not_ok fun w hw =>
      absurd (firstTag_unique (la_ok_firstTag hw) hft) (by decide)
    unfold AdbSocketFamilies.fromStr
    rw [h1, h2, hv]
  · intro v hv
    have hft := lfs_ok_firstTag hv
    obtain ⟨e1, h1⟩ := except_not_ok fun w hw =>
      absurd (firstTag_unique (tcp_ok_firstTag hw) hft) (by decide)
    obtain ⟨e2, h2⟩ := except_not_ok fun w hw =>
      absurd (firstTag_unique (la_ok_firstTag hw) hft) (by decide)
    obtain ⟨e3, h3⟩ := except_not_ok fun w hw =>
      absurd (firstTag_unique (lr_ok_firstTag hw) hft) (by decide)
    unfold AdbSocketFamilies.fromStr
    rw [h1, h2, h3, hv]
  · intro v hv
    have hft := dev_ok_firstTag hv
    obtain ⟨e1, h1⟩ := except_not_ok fun w hw =>
      absurd (firstTag_unique (tcp_ok_firstTag hw) hft) (by decide)
    obtain ⟨e2, h2⟩ := except_not_ok fun w hw =>
      absurd (firstTag_unique (la_ok_firstTag hw) hft) (by decide)
    obtain ⟨e3, h3⟩ := except_not_ok fun w hw =>
      absurd (firstTag_unique (lr_ok_firstTag hw) hft) (by decide)
    obtain ⟨e4, h4⟩ := except_not_ok fun w hw =>
      absurd (firstTag_unique (lfs_ok_firstTag hw) hft) (by decide)
    unfold AdbSocketFamilies.fromStr
    rw [h1, h2, h3, h4, hv]
  · intro v hv
    have hft := devRaw_ok_firstTag hv
    obtain ⟨e1, h1⟩ := except_not_ok fun w hw =>
      absurd (firstTag_unique (tcp_ok_firstTag hw) hft) (by decide)
    obtain ⟨e2, h2⟩ := except_not_ok fun w hw =>
      absurd (firstTag_unique (la_ok_firstTag hw) hft) (by decide)
    obtain ⟨e3, h3⟩ := except_not_ok fun w hw =>
      absurd (firstTag_unique (lr_ok_firstTag hw) hft) (by decide)
    obtain ⟨e4, h4⟩ := except_not_ok fun w hw =>
      absurd (firstTag_unique (lfs_ok_firstTag hw) hft) (by decide)
    obtain ⟨e5, h5⟩ := except_not_ok fun w hw =>
      absurd (firstTag_unique (dev_ok_firstTag hw) hft) (by decide)
    unfold AdbSocketFamilies.fromStr
    rw [h1, h2, h3, h4, h5, hv]
  · intro v hv
    have hft := jdwp_ok_firstTag hv
    obtain ⟨e1, h1⟩ := except_not_ok fun w hw =>
      absurd (firstTag_unique (tcp_ok_firstTag hw) hft) (by decide)
    obtain ⟨e2, h2⟩ := except_not_ok fun w hw =>
      absurd (firstTag_unique (la_ok_firstTag hw) hft) (by decide)
    obtain ⟨e3, h3⟩ := except_not_ok fun w hw =>
      absurd (firstTag_unique (lr_ok_firstTag hw) hft) (by decide)
    obtain ⟨e4, h4⟩ := except_not_ok fun w hw =>
      absurd (firstTag_unique (lfs_ok_firstTag hw) hft) (by decide)
    obtain ⟨e5, h5⟩ := except_not_ok fun w hw =>
      absurd (firstTag_unique (dev_ok_firstTag hw) hft) (by decide)
    obtain ⟨e6, h6⟩ := except_not_ok fun w hw =>
      absurd (firstTag_unique (devRaw_ok_firstTag hw) hft) (by decide)
    unfold AdbSocketFamilies.fromStr
    rw [h1, h2, h3, h4, h5, h6, hv]
  · intro v hv
    have hft := vsock_ok_firstTag hv
    obtain ⟨e1, h1⟩ := except_not_ok fun w hw =>
      absurd (firstTag_unique (tcp_ok_firstTag hw) hft) (by decide)
    obtain ⟨e2, h2⟩ := except_not_ok fun w hw =>
      absurd (firstTag_unique (la_ok_firstTag hw) hft) (by decide)
    obtain ⟨e3, h3⟩ := except_not_ok fun w hw =>
      absurd (firstTag_unique (lr_ok_firstTag hw) hft) (by decide)
    obtain ⟨e4, h4⟩ := except_not_ok fun w hw =>
      absurd (firstTag_unique (lfs_ok_firstTag hw) hft) (by decide)
    obtain ⟨e5, h5⟩ := except_not_ok fun w hw =>
      absurd (firstTag_unique (dev_ok_firstTag hw) hft) (by decide)
    obtain ⟨e6, h6⟩ := except_not_ok fun w hw =>
      absurd (firstTag_unique (devRaw_ok_firstTag hw) hft) (by decide)
    obtain ⟨e7, h7⟩ := except_not_ok fun w hw =>
      absurd (firstTag_unique (jdwp_ok_firstTag hw) hft) (by decide)
    unfold AdbSocketFamilies.fromStr
    rw [h1, h2, h3, h4, h5, h6, h7, hv]
  · intro v hv
    have hft := acceptFd_ok_firstTag hv
    obtain ⟨e1, h1⟩ := except_not_ok fun w hw =>
      absurd (firstTag_unique (tcp_ok_firstTag hw) hft) (by decide)
    obtain ⟨e2, h2⟩ := except_not_ok fun w hw =>
      absurd (firstTag_unique (la_ok_firstTag hw) hft) (by decide)
    obtain ⟨e3, h3⟩ := except_not_ok fun w hw =>
      absurd (firstTag_unique (lr_ok_firstTag hw) hft) (by decide)
    obtain ⟨e4, h4⟩ := except_not_ok fun w hw =>
      absurd (firstTag_unique (lfs_ok_firstTag hw) hft) (by decide)
    obtain ⟨e5, h5⟩ := except_not_ok fun w hw =>
      absurd (firstTag_unique (dev_ok_firstTag hw) hft) (by decide)
    obtain ⟨e6, h6⟩ := except_not_ok fun w hw =>
      absurd (firstTag_unique (devRaw_ok_firstTag hw) hft) (by decide)
    obtain ⟨e7, h7⟩ := except_not_ok fun w hw =>
      absurd (firstTag_unique (jdwp_ok_firstTag hw) hft) (by decide)
    obtain ⟨e8, h8⟩ := except_not_ok fun w hw =>
      absurd (firstTag_unique (vsock_ok_firstTag hw) hft) (by decide)
    unfold AdbSocketFamilies.fromStr
    rw [h1, h2, h3, h4, h5, h6, h7, h8, hv]

/-- Witness for C9: `"dev:x"` matches `Dev`'s grammar and the union yields the
`Dev` variant; `"dev-raw:x"` matches `DevRaw`'s grammar and the union yields
the `DevRaw` variant — the two tags do not capture each other. -/
theorem c9_tag_exclusivity_witness :
    AdbSocketFamilies.fromStr "dev:x" = .ok (.dev ⟨"x"⟩) ∧
    AdbSocketFamilies.fromStr "dev-raw:x" = .ok (.devRaw ⟨"x"⟩) :=
  ⟨(c9_tag_exclusivity "dev:x").2.2.2.2.1 ⟨"x"⟩ rfl,
   (c9_tag_exclusivity "dev-raw:x").2.2.2.2.2.1 ⟨"x"⟩ rfl⟩

/-- C4 counterexample: the error returned by the `Tcp` parse of `"tcp:xyz"`
carries `"xyz"` — the remainder after the tag — as its `value`, not the
original input string `"tcp:xyz"`; likewise the error of the `Vsock` parse of
`"vsock:abc:2"` carries `"2"` — the shadowed remainder after the cid
separator in the generated code — not the original input and not even the
post-tag remainder `"abc:2"`. -/
theorem c4_counterexample :
    (Tcp.fromStr "tcp:xyz" = .error ⟨"xyz", "&str", "Ipv6Addr", false⟩ ∧
      ("xyz" : String) ≠ "tcp:xyz") ∧
    (Vsock.fromStr "vsock:abc:2" = .error ⟨"2", "&str", "u32", true⟩ ∧
      ("2" : String) ≠ "vsock:abc:2" ∧ ("2" : String) ≠ "abc:2") :=
  ⟨⟨rfl, by decide⟩, rfl, by decide, by decide⟩

/-- C4 (amended): the `value` field of every error returned by any family's
parse or by the union's parse is an infix (contiguous substring) of the input
being parsed — not necessarily the whole input: depending on the failure site
it can be the whole input, a post-tag remainder, the bracket interior of
`Tcp`'s bracketed-IPv6 branch, or (for `Vsock`'s field errors, whose generated
code shadows `rest`) the text after the cid separator. -/
theorem c4_amended (s : String) :
    (∀ e, Tcp.fromStr s = .error e → ∃ pre post, s.data = pre ++ e.value.data ++ post) ∧
    (∀ e, LocalAbstract.fromStr s = .error e →
      ∃ pre post, s.data = pre ++ e.value.data ++ post) ∧
    (∀ e, LocalReserved.fromStr s = .error e →
      ∃ pre post, s.data = pre ++ e.value.data ++ post) ∧
    (∀ e, LocalFileSystem.fromStr s = .error e →
      ∃ pre post, s.data = pre ++ e.value.data ++ post) ∧
    (∀ e, Dev.fromStr s = .error e → ∃ pre post, s.data = pre ++ e.value.data ++ post) ∧
    (∀ e, DevRaw.fromStr s = .error e → ∃ pre post, s.data = pre ++ e.value.data ++ post) ∧
    (∀ e, Jdwp.fromStr s = .error e → ∃ pre post, s.data = pre ++ e.value.data ++ post) ∧
    (∀ e, Vsock.fromStr s = .error e → ∃ pre post, s.data = pre ++ e.value.data ++ post) ∧
    (∀ e, AcceptFd.fromStr s = .error e → ∃ pre post, s.data = pre ++ e.value.data ++ post) ∧
    (∀ e, AdbSocketFamilies.fromStr s = .error e →
      ∃ pre post, s.data = pre ++ e.value.data ++ post) := by
  refine ⟨?_, ?_, ?_, ?_, ?_, ?_, ?_, ?_, ?_, ?_⟩
  · intro e he
    cases hd : dropPre "tcp:".data s.data with
    | none =>
      unfold Tcp.fromStr at he
      rw [hd] at he
      injection he with h'
      subst h'
      exact ⟨[], [], by simp⟩
    | some value =>
      cases value with
      | nil =>
        unfold Tcp.fromStr at he
        rw [hd] at he
        injection he with h'
        subst h'
        exact ⟨[], [], by simp⟩
      | cons c tail =>
        have hsplit : s.data = "tcp:".data ++ c :: tail := dropPre_eq _ _ _ hd
        rw [tcpFromStr_strip hd (by simp)] at he
        cases r1 : rustParseUnsignedList 65536 (c :: tail) with
        | some port =>
          rw [r1] at he
          exact Except.noConfusion he
        | none =>
          rw [r1] at he
          cases r2 : sockAddrParse (c :: tail) with
          | some addr =>
            rw [r2] at he
            exact Except.noConfusion he
          | none =>
            rw [r2] at he
            cases r3 : ipv4Parse (c :: tail) with
            | some v4 =>
              rw [r3] at he
              exact Except.noConfusion he
            | none =>
              rw [r3] at he
              cases r4 : (dropPre ['['] (c :: tail)).bind (stripSuffixChar ']') with
              | none =>
                rw [r4] at he
                injection he with h'
                subst h'
                exact ⟨"tcp:".data, [], by simpa using hsplit⟩
              | some inner =>
                rw [r4] at he
                have h2 : (match ipv6Parse inner with
                    | some v6 => (Except.ok (Tcp.fromIpv6 v6) : Except AdbError Tcp)
                    | none => Except.error ⟨⟨inner⟩, "&str", "Ipv6Addr", true⟩) = .error e := he
                obtain ⟨rest1, hr1, hr2⟩ : ∃ rest1, dropPre ['['] (c :: tail) = some rest1 ∧
                    stripSuffixChar ']' rest1 = some inner := by
                  cases hx : dropPre ['['] (c :: tail) with
                  | none =>
                    rw [hx] at r4
                    exact Option.noConfusion r4
                  | some rest1 =>
                    rw [hx] at r4
                    exact ⟨rest1, rfl, r4⟩
                have hv1 : c :: tail = '[' :: rest1 := dropPre_eq _ _ _ hr1
                have hv2 : rest1 = inner ++ [']'] := stripSuffixChar_eq hr2
                cases r5 : ipv6Parse inner with
                | some v6 =>
                  rw [r5] at h2
                  exact Except.noConfusion h2
                | none =>
                  rw [r5] at h2
                  injection h2 with h'
                  subst h'
                  refine ⟨"tcp:[".data, [']'], ?_⟩
                  rw [hsplit, hv1, hv2]
                  rfl
  · intro e he
    cases hsp : splitOnceList ':' s.data with
    | none =>
      unfold LocalAbstract.fromStr at he
      rw [hsp] at he
      injection he with h'
      subst h'
      exact ⟨[], [], by simp⟩
    | some pr =>
      obtain ⟨tag, rest⟩ := pr
      rw [laFromStr_strip hsp] at he
      split_ifs at he with ht
      injection he with h'
      subst h'
      exact ⟨[], [], by simp⟩
  · intro e he
    cases hsp : splitOnceList ':' s.data with
    | none =>
      unfold LocalReserved.fromStr at he
      rw [hsp] at he
      injection he with h'
      subst h'
      exact ⟨[], [], by simp⟩
    | some pr =>
      obtain ⟨tag, rest⟩ := pr
      rw [lrFromStr_strip hsp] at he
      split_ifs at he with ht
      injection he with h'
      subst h'
      exact ⟨[], [], by simp⟩
  · intro e he
    cases hsp : splitOnceList ':' s.data with
    | none =>
      unfold LocalFileSystem.fromStr at he
      rw [hsp] at he
      injection he with h'
      subst h'
      exact ⟨[], [], by simp⟩
    | some pr =>
      obtain ⟨tag, rest⟩ := pr
      rw [lfsFromStr_strip hsp] at he
      split_ifs at he with ht
      injection he with h'
      subst h'
      exact ⟨[], [], by simp⟩
  · intro e he
    cases hsp : splitOnceList ':' s.data with
    | none =>
      unfold Dev.fromStr at he
      rw [hsp] at he
      injection he with h'
      subst h'
      exact ⟨[], [], by simp⟩
    | some pr =>
      obtain ⟨tag, rest⟩ := pr
      rw [devFromStr_strip hsp] at he
      split_ifs at he with ht
      injection he with h'
      subst h'
      exact ⟨[], [], by simp⟩
  · intro e he
    unfold DevRaw.fromStr at he
    cases hd : dropPre "dev-raw:".data s.data with
    | none =>
      rw [hd] at he
      injection he with h'
      subst h'
      exact ⟨[], [], by simp⟩
    | some rest =>
      rw [hd] at he
      exact Except.noConfusion he
  · intro e he
    cases hsp : splitOnceList ':' s.data with
    | none =>
      unfold Jdwp.fromStr at he
      rw [hsp] at he
      injection he with h'
      subst h'
      exact ⟨[], [], by simp⟩
    | some pr =>
      obtain ⟨tag, rest⟩ := pr
      rw [jdwpFromStr_strip hsp] at he
      split_ifs at he with ht
      · cases rp : rustParseUnsignedList u32Bound rest with
        | some pid =>
          rw [rp] at he
          exact Except.noConfusion he
        | none =>
          rw [rp] at he
          injection he with h'
          subst h'
          obtain ⟨hs, -⟩ := splitOnceList_eq hsp
          exact ⟨tag ++ [':'], [], by rw [hs]; simp⟩
      · injection he with h'
        subst h'
        exact ⟨[], [], by simp⟩
  · intro e he
    cases hsp : splitOnceList ':' s.data with
    | none =>
      unfold Vsock.fromStr at he
      rw [hsp] at he
      injection he with h'
      subst h'
      exact ⟨[], [], by simp⟩
    | some pr =>
      obtain ⟨tag, rest⟩ := pr
      rw [vsockFromStr_tagStrip hsp] at he
      split_ifs at he with ht
      · obtain ⟨hs, -⟩ := splitOnceList_eq hsp
        cases hsp2 : splitOnceList ':' rest with
        | none =>
          rw [hsp2] at he
          injection he with h'
          subst h'
          exact ⟨tag ++ [':'], [], by rw [hs]; simp⟩
        | some pr2 =>
          obtain ⟨cidPart, rest2⟩ := pr2
          rw [hsp2] at he
          have h2 : (match rustParseUnsignedList u32Bound cidPart with
              | some cid =>
                (match rustParseUnsignedList u32Bound rest2 with
                 | some port => (Except.ok ⟨cid, port⟩ : Except AdbError Vsock)
                 | none => Except.error ⟨⟨rest2⟩, "&str", "u32", true⟩)
              | none => Except.error ⟨⟨rest2⟩, "&str", "u32", true⟩) = .error e := he
          obtain ⟨hr, -⟩ := splitOnceList_eq hsp2
          have hgoal : ∃ pre post, s.data = pre ++ rest2 ++ post := by
            refine ⟨tag ++ ':' :: cidPart ++ [':'], [], ?_⟩
            rw [hs, hr]
            simp
          cases rc : rustParseUnsignedList u32Bound cidPart with
          | none =>
            rw [rc] at h2
            injection h2 with h'
            subst h'
            exact hgoal
          | some cid =>
            rw [rc] at h2
            cases rp : rustParseUnsignedList u32Bound rest2 with
            | some port =>
              rw [rp] at h2
              exact Except.noConfusion h2
            | none =>
              rw [rp] at h2
              injection h2 with h'
              subst h'
              exact hgoal
      · injection he with h'
        subst h'
        exact ⟨[], [], by simp⟩
  · intro e he
    cases hsp : splitOnceList ':' s.data with
    | none =>
      unfold AcceptFd.fromStr at he
      rw [hsp] at he
      injection he with h'
      subst h'
      exact ⟨[], [], by simp⟩
    | some pr =>
      obtain ⟨tag, rest⟩ := pr
      rw [acceptFdFromStr_strip hsp] at he
      split_ifs at he with ht
      · cases rp : rustParseUnsignedList u32Bound rest with
        | some fd =>
          rw [rp] at he
          exact Except.noConfusion he
        | none =>
          rw [rp] at he
          injection he with h'
          subst h'
          obtain ⟨hs, -⟩ := splitOnceList_eq hsp
          exact ⟨tag ++ [':'], [], by rw [hs]; simp⟩
      · injection he with h'
        subst h'
        exact ⟨[], [], by simp⟩
  · intro e he
    unfold AdbSocketFamilies.fromStr at he
    cases k1 : Tcp.fromStr s with
    | ok v =>
      rw [k1] at he
      exact Except.noConfusion he
    | error e1 =>
      rw [k1] at he
      cases k2 : LocalAbstract.fromStr s with
      | ok v =>
        rw [k2] at he
        exact Except.noConfusion he
      | error e2 =>
        rw [k2] at he
        cases k3 : LocalReserved.fromStr s with
        | ok v =>
          rw [k3] at he
          exact Except.noConfusion he
        | error e3 =>
          rw [k3] at he
          cases k4 : LocalFileSystem.fromStr s with
          | ok v =>
            rw [k4] at he
            exact Except.noConfusion he
          | error e4 =>
            rw [k4] at he
            cases k5 : Dev.fromStr s with
            | ok v =>
              rw [k5] at he
              exact Except.noConfusion he
            | error e5 =>
              rw [k5] at he
              cases k6 : DevRaw.fromStr s with
              | ok v =>
                rw [k6] at he
                exact Except.noConfusion he
              | error e6 =>
                rw [k6] at he
                cases k7 : Jdwp.fromStr s with
                | ok v =>
                  rw [k7] at he
                  exact Except.noConfusion he
                | error e7 =>
                  rw [k7] at he
                  cases k8 : Vsock.fromStr s with
                  | ok v =>
                    rw [k8] at he
                    exact Except.noConfusion he
                  | error e8 =>
                    rw [k8] at he
                    cases k9 : AcceptFd.fromStr s with
                    | ok v =>
                      rw [k9] at he
                      exact Except.noConfusion he
                    | error e9 =>
                      rw [k9] at he
                      injection he with h'
                      subst h'
                      exact ⟨[], [], by simp⟩

/-- Witness for C4 (amended): the error of `Tcp.fromStr "tcp:xyz"` carries
`"xyz"`, an infix of the input `"tcp:xyz"`. -/
theorem c4_amended_witness :
    ∃ pre post, "tcp:xyz".data = pre ++ ("xyz" : String).data ++ post :=
  (c4_amended "tcp:xyz").1 ⟨"xyz", "&str", "Ipv6Addr", false⟩ rfl

/-- C8: `Tcp::from_host` tries the literal parse first (succeeding without
consulting the resolver); otherwise it resolves the text, retrying with a
synthetic `":0"` suffix when the first resolution fails — on retry success the
port is discarded, on retry failure the original resolution error is returned.
A successful resolution prefers the first IPv4 candidate and otherwise uses
the first candidate. -/
theorem c8_from_host (resolver : String → Option (List SocketAddr)) (host : String) :
    (∀ t, Tcp.fromStr host = .ok t → Tcp.fromHost resolver host = .ok t) ∧
    (exceptIsOk (Tcp.fromStr host) = false →
      ∀ t, Tcp.resolve resolver host = .ok t → Tcp.fromHost resolver host = .ok t) ∧
    (exceptIsOk (Tcp.fromStr host) = false →
      ∀ e, Tcp.resolve resolver host = .error e →
        (∀ t, Tcp.resolve resolver (host ++ ":0") = .ok t →
          Tcp.fromHost resolver host = .ok ⟨t.ip, none⟩) ∧
        (∀ e2, Tcp.resolve resolver (host ++ ":0") = .error e2 →
          Tcp.fromHost resolver host = .error e)) ∧
    (∀ first rest, resolver host = some (first :: rest) →
      Tcp.resolve resolver host =
        .ok (Tcp.ofSocketAddr (((first :: rest).find? SocketAddr.isV4).getD first))) := by
  refine ⟨?_, ?_, ?_, ?_⟩
  · intro t ht
    unfold Tcp.fromHost
    rw [ht]
  · intro hf t hr
    obtain ⟨e0, he0⟩ := exceptIsOk_false hf
    unfold Tcp.fromHost
    rw [he0, hr]
  · intro hf e he
    obtain ⟨e0, he0⟩ := exceptIsOk_false hf
    constructor
    · intro t ht0
      unfold Tcp.fromHost
      rw [he0, he, ht0]
    · intro e2 he2
      unfold Tcp.fromHost
      rw [he0, he, he2]
  · intro first rest hres
    unfold Tcp.resolve
    rw [hres]
    cases first with
    | v4 ip port => rfl
    | v6 ip port scopeId => rfl

/-- Witness for C8: a host that fails the literal parse and resolves to an
IPv6 candidate followed by two IPv4 candidates yields the first IPv4
candidate. -/
theorem c8_from_host_witness :
    Tcp.resolve (fun _ => some [SocketAddr.v6 ⟨[0, 0, 0, 0, 0, 0, 0, 1]⟩ 80 0,
        SocketAddr.v4 ⟨1, 2, 3, 4⟩ 80, SocketAddr.v4 ⟨5, 6, 7, 8⟩ 81]) "example.com" =
      .ok ⟨some (.v4 ⟨1, 2, 3, 4⟩), some 80⟩ :=
  (c8_from_host (fun _ => some [SocketAddr.v6 ⟨[0, 0, 0, 0, 0, 0, 0, 1]⟩ 80 0,
        SocketAddr.v4 ⟨1, 2, 3, 4⟩ 80, SocketAddr.v4 ⟨5, 6, 7, 8⟩ 81]) "example.com").2.2.2
    (SocketAddr.v6 ⟨[0, 0, 0, 0, 0, 0, 0, 1]⟩ 80 0)
    [SocketAddr.v4 ⟨1, 2, 3, 4⟩ 80, SocketAddr.v4 ⟨5, 6, 7, 8⟩ 81] rfl

end Disanger
